import Mathlib

/-!
Shallow embedding of the market price refresh pipeline of the TibiaSearch
repository (`scripts/refresh_market_prices.py`), together with proofs of the
specified properties.  Python strings are modelled as Lean `String`/`List Char`
(ASCII case folding, matching CPython on the ASCII range), Python dicts as
insertion-ordered association lists with last-write-wins update, JSON payloads
as an inductive `JVal` type, and wall-clock / network / randomness effects as
explicit oracle parameters.
-/

namespace MarketRefresh

/-- Whitespace class used by Python `str.strip` and the regex `\s` on the ASCII
range: space, tab, newline, carriage return, vertical tab, form feed. -/
def isPySpace (c : Char) : Bool :=
  c.toNat = 32 || c.toNat = 9 || c.toNat = 10 || c.toNat = 13 ||
    c.toNat = 11 || c.toNat = 12

/-- Typographic apostrophe U+2019, the character replaced by
`value.replace("’", "'")` in `normalize_name`. -/
def typoApostrophe : Char := Char.ofNat 8217

/-- Plain ASCII apostrophe U+0027. -/
def plainApostrophe : Char := Char.ofNat 39

/-- Python `str.strip()` on a character list: drop whitespace from both ends. -/
def pyStrip (l : List Char) : List Char :=
  ((l.dropWhile isPySpace).reverse.dropWhile isPySpace).reverse

/-- The character map of `value.replace("’", "'")`. -/
def replChar (c : Char) : Char :=
  if c = typoApostrophe then plainApostrophe else c

/-- ASCII lower-casing of one character, the behaviour of Python `str.lower`
on the ASCII range (codepoints 65-90 map to 97-122, everything else fixed). -/
def pyToLower (c : Char) : Char :=
  if 65 ≤ c.toNat ∧ c.toNat ≤ 90 then Char.ofNat (c.toNat + 32) else c

/-- Replace every maximal run of whitespace by a single space: the effect of
`re.sub(r"\s+", " ", cleaned)`.  The single space is emitted at the last
character of each whitespace run (equivalent to replacing the run wholesale,
and structurally recursive). -/
def collapseWs : List Char → List Char
  | [] => []
  | c :: rest =>
    if isPySpace c then
      match rest with
      | [] => [' ']
      | d :: _ => if isPySpace d then collapseWs rest else ' ' :: collapseWs rest
    else c :: collapseWs rest

/-- Embedding of `normalize_name`: strip, fold the typographic apostrophe to a
plain one, collapse whitespace runs to single spaces, lower-case. -/
def normalize_name (s : String) : String :=
  String.mk (((collapseWs ((pyStrip s.toList).map replChar)).map pyToLower))

/-- Embedding of `normalize_header`: strip, lower-case, collapse whitespace. -/
def normalize_header (s : String) : String :=
  String.mk (collapseWs ((pyStrip s.toList).map pyToLower))

/-- Combined per-character canonicalisation: apostrophe folding followed by
lower-casing.  `normalize_name` acts as this map on each token character. -/
def canonChar (c : Char) : Char := pyToLower (replChar c)

/-- Split a character list into its maximal whitespace-free tokens (word
segmentation used to reason about `normalize_name`).  A non-whitespace
character joins the token of the following character when that one is also
non-whitespace. -/
def tokens : List Char → List (List Char)
  | [] => []
  | c :: rest =>
    if isPySpace c then tokens rest
    else
      match rest with
      | [] => [[c]]
      | d :: _ =>
        if isPySpace d then [c] :: tokens rest
        else
          match tokens rest with
          | [] => [[c]]
          | t :: ts => (c :: t) :: ts

/-- Python-dict lookup on an insertion-ordered association list (keys are kept
unique by `dinsert`, so first match is the binding). -/
def dlookup {α β : Type} [DecidableEq α] (d : List (α × β)) (k : α) : Option β :=
  (d.find? (fun p => p.1 = k)).map Prod.snd

/-- Python-dict assignment `d[k] = v`: overwrite in place if the key exists,
otherwise append, preserving insertion order. -/
def dinsert {α β : Type} [DecidableEq α] (d : List (α × β)) (k : α) (v : β) :
    List (α × β) :=
  if (d.find? (fun p => p.1 = k)).isSome then
    d.map (fun p => if p.1 = k then (k, v) else p)
  else d ++ [(k, v)]

/-- Python dict merge `{**a, **b}` / `a.update(b)`: bindings of `b` win. -/
def dmerge {α β : Type} [DecidableEq α] (a b : List (α × β)) : List (α × β) :=
  b.foldl (fun acc p => dinsert acc p.1 p.2) a

/-- A catalog item as stored in `creature_products.json` /
`delivery_task_items.json`.  Only the fields the refresh pipeline reads or
writes (`name`, `id`, `gold`) are modelled; the code leaves all other keys of
the item dict untouched.  A stored `id` that is not a Python `int` is modelled
as `none`, since every `isinstance(item_id, int)` test in the source treats the
two cases identically. -/
structure Item where
  name : String
  id : Option Int
  gold : Int
deriving DecidableEq, Repr

/-- Resolved id of an item: its stored id if it is an integer, otherwise the
mapping entry for its normalized name.  This is the lookup performed at the top
of each loop iteration of both `apply_item_ids` and
`update_items_with_prices`. -/
def resolvedId (nameToId : List (String × Int)) (it : Item) : Option Int :=
  match it.id with
  | some i => some i
  | none => dlookup nameToId (normalize_name it.name)

/-- Embedding of `apply_item_ids`: attach resolved ids to items, returning the
updated items and the list of resolved ids in catalog order. -/
def apply_item_ids (items : List Item) (nameToId : List (String × Int)) :
    List Item × List Int :=
  match items with
  | [] => ([], [])
  | it :: rest =>
    let r := apply_item_ids rest nameToId
    match resolvedId nameToId it with
    | some i => ({ it with id := some i } :: r.1, i :: r.2)
    | none => (it :: r.1, r.2)

/-- Price written to an item for a resolved, processed id: the fetched value,
with an absent or `-1` sell offer normalized to 0. -/
def priceRule (sellOffer : Option Int) : Int :=
  match sellOffer with
  | none => 0
  | some v => if v = -1 then 0 else v

/-- Per-item transformation performed by one iteration of
`update_items_with_prices` (the item as left in the catalog list). -/
def updateOne (nameToId : List (String × Int)) (marketValues : Option (List (Int × Int)))
    (processedIds : Option (List Int)) (it : Item) : Item :=
  let it1 : Item :=
    match it.id with
    | some _ => it
    | none =>
      match dlookup nameToId (normalize_name it.name) with
      | some i => { it with id := some i }
      | none => it
  match resolvedId nameToId it with
  | none =>
    match marketValues with
    | none => it1
    | some _ => { it1 with gold := 0 }
  | some i =>
    match processedIds with
    | some pids =>
      if i ∈ pids then
        match marketValues with
        | none => it1
        | some mv => { it1 with gold := priceRule (dlookup mv i) }
      else it1
    | none =>
      match marketValues with
      | none => it1
      | some mv => { it1 with gold := priceRule (dlookup mv i) }

/-- Per-item contribution of one iteration of `update_items_with_prices` to the
counters `(updated, without_price, missing_ids)`. -/
def updateCounts (nameToId : List (String × Int)) (marketValues : Option (List (Int × Int)))
    (processedIds : Option (List Int)) (it : Item) : Nat × Nat × Nat :=
  match resolvedId nameToId it with
  | none =>
    match marketValues with
    | none => (0, 0, 1)
    | some _ => (0, 1, 1)
  | some i =>
    let skip : Bool :=
      match processedIds with
      | some pids => decide (i ∉ pids)
      | none => false
    if skip then (0, 0, 0)
    else
      match marketValues with
      | none => (0, 0, 0)
      | some mv =>
        match dlookup mv i with
        | none => (1, 1, 0)
        | some v => if v = -1 then (1, 1, 0) else (1, 0, 0)

/-- Embedding of `update_items_with_prices`: walk the catalog, attach missing
ids from the mapping, skip items whose id is outside `processedIds`, write
prices from `marketValues` and accumulate `(updated, without_price,
missing_ids)`.  Python mutates the list in place; the embedding returns the
updated list together with the three counters. -/
def update_items_with_prices (items : List Item) (nameToId : List (String × Int))
    (marketValues : Option (List (Int × Int))) (processedIds : Option (List Int)) :
    List Item × Nat × Nat × Nat :=
  match items with
  | [] => ([], 0, 0, 0)
  | it :: rest =>
    let r := update_items_with_prices rest nameToId marketValues processedIds
    let c := updateCounts nameToId marketValues processedIds it
    (updateOne nameToId marketValues processedIds it :: r.1,
      c.1 + r.2.1, c.2.1 + r.2.2.1, c.2.2 + r.2.2.2)

/-- JSON values as produced by `json.loads` (floats are outside the model; the
pipeline's payloads are integer-valued). -/
inductive JVal where
  | jnull
  | jbool (b : Bool)
  | jint (n : Int)
  | jstr (s : String)
  | jarr (xs : List JVal)
  | jobj (fields : List (String × JVal))

/-- Decimal digit test on a character. -/
def isDigitCh (c : Char) : Bool := 48 ≤ c.toNat && c.toNat ≤ 57

/-- Numeric value of a list of decimal digit characters. -/
def digitsToNat (ds : List Char) : Nat :=
  ds.foldl (fun a c => a * 10 + (c.toNat - 48)) 0

/-- Python `int(str)` on the fragment the pipeline meets: optional surrounding
whitespace, optional sign, decimal digits.  Anything else raises `ValueError`,
modelled as `none`. -/
def pyIntOfString (s : String) : Option Int :=
  let cs := pyStrip s.toList
  match cs with
  | [] => none
  | c :: rest =>
    if c.toNat = 45 then
      if rest ≠ [] ∧ rest.all isDigitCh then some (-(digitsToNat rest : Int)) else none
    else if c.toNat = 43 then
      if rest ≠ [] ∧ rest.all isDigitCh then some (digitsToNat rest : Int) else none
    else if (c :: rest).all isDigitCh then some (digitsToNat (c :: rest) : Int)
    else none

/-- Python `int(x)` coercion on a JSON value: integers pass through, booleans
become 0/1, numeric strings are parsed; `None`, lists and dicts raise
`TypeError` and non-numeric strings raise `ValueError` (both `none` here). -/
def pyIntOfJVal : JVal → Option Int
  | .jint n => some n
  | .jbool b => some (if b then 1 else 0)
  | .jstr s => pyIntOfString s
  | _ => none

/-- The value passed to `int(entry.get("id"))`: the `id` field of the entry,
`None` when the key is missing. -/
def entryIdVal (fields : List (String × JVal)) : JVal :=
  match dlookup fields "id" with
  | some v => v
  | none => .jnull

/-- One `for entry in items` iteration of `_parse_market_values`: skip non-dict
entries and entries whose id does not coerce to an integer, map an absent or
uncoercible or `-1` sell offer to 0, clamp everything at 0. -/
def parseMarketEntry (acc : List (Int × Int)) (entry : JVal) : List (Int × Int) :=
  match entry with
  | .jobj fields =>
    match pyIntOfJVal (entryIdVal fields) with
    | none => acc
    | some eid =>
      match dlookup fields "sell_offer" with
      | none => dinsert acc eid 0
      | some .jnull => dinsert acc eid 0
      | some so =>
        match pyIntOfJVal so with
        | none => dinsert acc eid 0
        | some sv => dinsert acc eid (if sv = -1 then 0 else max 0 sv)
  | _ => acc

/-- Python truthiness of a JSON value (`if not items`). -/
def jTruthy : JVal → Bool
  | .jnull => false
  | .jbool b => b
  | .jint n => decide (n ≠ 0)
  | .jstr s => decide (s ≠ "")
  | .jarr xs => !xs.isEmpty
  | .jobj fs => !fs.isEmpty

/-- Embedding of `MarketRefresher._parse_market_values`.  `none` models the
`TypeError` raised by `for entry in items` when the `items` field is a truthy
non-iterable (a number or `True`); iterating a dict yields its string keys and
iterating a string yields its characters, neither of which is a dict entry, so
both produce an empty mapping. -/
def parseItemsField (payload : JVal) : Option JVal :=
  match payload with
  | .jobj fields =>
    match dlookup fields "items" with
    | some v => some v
    | none => none
  | .jarr xs => some (.jarr xs)
  | _ => none

/-- Iteration source and truthiness gate of `_parse_market_values`
(`if not items: return` and `for entry in items`), see `parse_market_values`
below. -/
def parseItemsList (items : Option JVal) : Option (List (Int × Int)) :=
  match items with
  | none => some []
  | some v =>
    if jTruthy v then
      match v with
      | .jarr entries => some (entries.foldl parseMarketEntry [])
      | .jobj _ => some []
      | .jstr _ => some []
      | _ => none
    else some []

/-- Composition of the two halves above: the full embedding of
`MarketRefresher._parse_market_values`. -/
def parse_market_values (payload : JVal) : Option (List (Int × Int)) :=
  parseItemsList (parseItemsField payload)

/-- Python `str.strip()` at the `String` level. -/
def pyStripStr (s : String) : String := String.mk (pyStrip s.toList)

/-- Python substring test `needle in hay`. -/
def pyInStr (needle hay : String) : Bool :=
  hay.toList.tails.any (fun t => needle.toList.isPrefixOf t)

/-- Python `float(str)` on the integer-valued strings carried by the
`Retry-After` headers the fetcher meets; an unparseable string raises
`ValueError`, modelled as `none`. -/
def pyFloatOfString (s : String) : Option ℚ :=
  (pyIntOfString s).map (fun n => (n : ℚ))

/-- Embedding of `MarketRefresher._compute_retry_after`.  The `Retry-After`
header value (already `None` when `exc.headers` is falsy), the attempt number,
and the two `random.uniform` draws and the throttle's currently required delay
are explicit parameters; `backoffDraw` is the draw from
`BACKOFF_NO_RETRY_AFTER[min(attempt - 1, 2)]` used when the header is absent
or falsy. -/
def computeRetryAfter (retryAfter : Option String) (jitter backoffDraw throttleDelay : ℚ) :
    ℚ :=
  let base : ℚ :=
    match retryAfter with
    | some s =>
      if s = "" then backoffDraw
      else
        (match pyFloatOfString s with
         | some v => v
         | none => 0) + jitter
    | none => backoffDraw
  max base throttleDelay

/-- Outcome of one HTTP attempt of `_fetch_market_batch`: a decoded and parsed
successful response, an `HTTPError` with status code and optional `Retry-After`
header, or a connection/JSON-decoding error. -/
inductive AttemptOutcome where
  | success (values : List (Int × Int))
  | httpErr (code : Nat) (retryAfter : Option String)
  | connErr

/-- Retry loop of `MarketRefresher._fetch_market_batch` from a given attempt
number with the given number of loop iterations left (`maxAttempts - attempt
+ 1`).  Oracles: the response to each attempt, the `random.uniform` draws for
jitter, no-header backoff and server-error backoff per attempt, and the
throttle delay observed by `_compute_retry_after` per attempt.  Returns the
batch result (`none` = batch abandoned) and the list of retry sleeps
performed, in order.  The unconditional throttle wait at the top of each
iteration and the successful response's parsing are outside this model (the
parser is embedded separately as `parse_market_values`). -/
def fetchLoop (outcome : Nat → AttemptOutcome) (jitter backoffDraw serverBackoff throttleDelay : Nat → ℚ) :
    Nat → Nat → Option (List (Int × Int)) × List ℚ
  | 0, _ => (none, [])
  | r + 1, attempt =>
    match outcome attempt with
    | .success values => (some values, [])
    | .httpErr code retryAfter =>
      if code = 429 then
        let w := computeRetryAfter retryAfter (jitter attempt) (backoffDraw attempt)
          (throttleDelay attempt)
        if attempt = 3 then (none, [])
        else
          let rec' := fetchLoop outcome jitter backoffDraw serverBackoff throttleDelay r
            (attempt + 1)
          (rec'.1, w :: rec'.2)
      else if 500 ≤ code ∧ code < 600 then
        if attempt = 3 then (none, [])
        else
          let w := max (serverBackoff attempt) (throttleDelay attempt)
          let rec' := fetchLoop outcome jitter backoffDraw serverBackoff throttleDelay r
            (attempt + 1)
          (rec'.1, w :: rec'.2)
      else (none, [])
    | .connErr =>
      if attempt = 3 then (none, [])
      else
        let w := max (serverBackoff attempt) (throttleDelay attempt)
        let rec' := fetchLoop outcome jitter backoffDraw serverBackoff throttleDelay r
          (attempt + 1)
        (rec'.1, w :: rec'.2)

/-- Embedding of `_fetch_market_batch`: three attempts starting at attempt 1. -/
def fetch_market_batch (outcome : Nat → AttemptOutcome)
    (jitter backoffDraw serverBackoff throttleDelay : Nat → ℚ) :
    Option (List (Int × Int)) × List ℚ :=
  fetchLoop outcome jitter backoffDraw serverBackoff throttleDelay 3 1

/-- A parsed HTML table: rows of cell texts as extracted by `TableParser`
(header row first).  The HTML parsing itself (`parse_tables` /
`strip_highlight_wrappers`) is outside the model; tables enter as data. -/
abbrev Table : Type := List (List String)

/-- Embedding of `find_table`: first table whose normalized header-cell texts
include every required header, returned as (header row, remaining rows); empty
tables are skipped. -/
def find_table (tables : List Table) (required : List String) :
    Option (List String × List (List String)) :=
  match tables with
  | [] => none
  | t :: rest =>
    match t with
    | [] => find_table rest required
    | headers :: body =>
      if required.all (fun r => (headers.map normalize_header).contains r) then
        some (headers, body)
      else find_table rest required

/-- Embedding of `find_column`: index of the first header whose normalized text
contains one of the candidate substrings. -/
def find_column (headers : List String) (candidates : List String) : Option Nat :=
  go (headers.map normalize_header) 0
where
  go : List String → Nat → Option Nat
    | [], _ => none
    | name :: rest, idx =>
      if candidates.any (fun c => pyInStr c name) then some idx
      else go rest (idx + 1)

/-- Python `x or default` on an optional column index: `None` and the falsy
index 0 both fall back to the default. -/
def pyOrIdx (x : Option Nat) (default : Nat) : Nat :=
  match x with
  | some n => if n = 0 then default else n
  | none => default

/-- First run of decimal digits in a string (`re.search(r"\d+", raw_id)`). -/
def firstIntSub (s : String) : Option Nat :=
  let ds := (s.toList.dropWhile (fun c => !isDigitCh c)).takeWhile isDigitCh
  if ds.isEmpty then none else some (digitsToNat ds)

/-- One data-row step of `fetch_item_ids`: skip short rows, rows with a blank
name or id cell and rows whose id cell has no digit run, otherwise bind the
normalized name to the id. -/
def itemIdsRowStep (nameIdx idIdx : Nat) (acc : List (String × Int)) (row : List String) :
    List (String × Int) :=
  if nameIdx < row.length ∧ idIdx < row.length then
    let name := pyStripStr (row.getD nameIdx "")
    let rawId := pyStripStr (row.getD idIdx "")
    if name = "" ∨ rawId = "" then acc
    else
      match firstIntSub rawId with
      | none => acc
      | some n => dinsert acc (normalize_name name) (n : Int)
  else acc

/-- Embedding of `fetch_item_ids` from the parsed-table level on.  The saved
reference document is modelled as `none` when the dump file is missing and as
the list of tables `parse_tables` extracts from it otherwise.  Errors carry the
`RuntimeError` message. -/
def fetch_item_ids (dump : Option (List Table)) : Except String (List (String × Int)) :=
  match dump with
  | none => .error "Item IDs dump not found"
  | some tables =>
    match find_table tables ["item", "id"] with
    | none => .error "Item IDs table not found in saved dump"
    | some (headers, rows) =>
      let nameIdx := pyOrIdx (find_column headers ["name", "item"]) 0
      let idIdx := pyOrIdx (find_column headers ["item id", "id"]) 1
      .ok (rows.foldl (itemIdsRowStep nameIdx idIdx) [])

/-- The fixed alias pairs of `build_alias_mapping` (target name, source name). -/
def aliasPairs : List (String × String) :=
  [("Frozen Claw (Ice Horror)", "Frozen Claw"),
   ("Darklight Core", "Darklight Core (Object)"),
   ("Darklight Matter", "Darklight Matter (Object)"),
   ("Gore Horn", "Gore Horn (Item)"),
   ("Silencer Claw", "Silencer Claws")]

/-- Embedding of `build_alias_mapping`: alias entries are added only when the
canonical (source) name resolves in the base mapping. -/
def build_alias_mapping (mapping : List (String × Int)) : List (String × Int) :=
  aliasPairs.foldl
    (fun acc p =>
      match dlookup mapping (normalize_name p.2) with
      | some sourceId => dinsert acc (normalize_name p.1) sourceId
      | none => acc)
    []

/-- Contents of `market_refresh_meta.json` after the defensive parse of
`load_market_refresh_meta`: the two per-server string maps. -/
structure Meta where
  lastUpdate : List (String × String)
  lastRefreshAt : List (String × String)
deriving DecidableEq, Repr

/-- Contents of `item_ids_cache.json` as consumed by `_refresh_server_impl`:
`fresh` abstracts the `item_ids_cache_is_fresh` wall-clock TTL comparison, and
`items` is the parsed name-to-id map (`none` when the `items` field is not a
dict). -/
structure IdsCache where
  fresh : Bool
  items : Option (List (String × Int))
deriving DecidableEq, Repr

/-- Persistent state touched by one refresh: the metadata file (`none`:
missing, `some none`: invalid JSON, `some (some m)`: parsed), the item lists of
the two catalog files, the id cache and the saved reference document. -/
structure FsState where
  metaFile : Option (Option Meta)
  creatureItems : List Item
  deliveryItems : List Item
  idsCache : Option IdsCache
  dump : Option (List Table)

/-- External-world oracle for one refresh: the decoded world-data response,
the value of `iso_timestamp()` during the run, and the outcome of
`_fetch_market_batch` for each batch index (`none` = every retry exhausted). -/
structure Env where
  worldResp : JVal
  now : String
  batchOutcome : Nat → Option (List (Int × Int))

/-- Observable effects of one refresh, in order: network requests and file
writes. -/
inductive Eff where
  | netWorldData (server : String)
  | netMarketBatch (server : String) (batch : List Int)
  | writeIdsCache
  | writeCreature
  | writeDelivery
  | writeMeta
deriving DecidableEq, Repr

/-- Network effects among a list of effects. -/
def netEffs (effs : List Eff) : List Eff :=
  effs.filter (fun e =>
    match e with
    | .netWorldData _ => true
    | .netMarketBatch _ _ => true
    | _ => false)

/-- File-write effects among a list of effects. -/
def writeEffs (effs : List Eff) : List Eff :=
  effs.filter (fun e =>
    match e with
    | .writeIdsCache => true
    | .writeCreature => true
    | .writeDelivery => true
    | .writeMeta => true
    | _ => false)

/-- Values appearing in the result dict of a refresh (`dict[str, int | str]`,
plus the boolean `skipped` flag and the float `duration_seconds`, modelled as a
rational). -/
inductive RVal where
  | rint (n : Int)
  | rstr (s : String)
  | rbool (b : Bool)
  | rrat (q : ℚ)
deriving DecidableEq, Repr

/-- A refresh result: a Python dict from string keys to result values. -/
abbrev RDict : Type := List (String × RVal)

/-- Embedding of `load_market_refresh_meta`: a missing or unparseable file
yields the empty maps. -/
def loadMeta (f : Option (Option Meta)) : Meta :=
  match f with
  | some (some m) => m
  | _ => { lastUpdate := [], lastRefreshAt := [] }

/-- Embedding of `_extract_last_update` composed with `_fetch_world_data`'s
non-dict fallback: the `servers.<server>.last_update` string of the world-data
response, if each level has the expected shape. -/
def extractLastUpdate (w : JVal) (server : String) : Option String :=
  match w with
  | .jobj fields =>
    match dlookup fields "servers" with
    | some (.jobj ss) =>
      match dlookup ss server with
      | some (.jobj se) =>
        match dlookup se "last_update" with
        | some (.jstr s) => some s
        | _ => none
      | _ => none
    | _ => none
  | _ => none

/-- The freshness-gate condition
`if last_update_remote and last_update_local == last_update_remote`: the remote
timestamp is truthy (present and non-empty) and equals the locally stored
one. -/
def skipCond (st : FsState) (env : Env) (server : String) : Bool :=
  match extractLastUpdate env.worldResp server with
  | some t => !(t = "") && dlookup (loadMeta st.metaFile).lastUpdate server = some t
  | none => false

/-- Name-to-id mapping taken from the ids cache when the cache file parses, is
fresh and its `items` field is a dict (`name_to_id` after the cache branch of
`_refresh_server_impl`). -/
def cachedMapping (c : Option IdsCache) : Option (List (String × Int)) :=
  match c with
  | some cache => if cache.fresh then cache.items else none
  | none => none

/-- The base mapping extended with its aliases,
`{**name_to_id, **aliases}`. -/
def withAliases (m : List (String × Int)) : List (String × Int) :=
  dmerge m (build_alias_mapping m)

/-- Insert an integer into a sorted list. -/
def insertSorted (x : Int) : List Int → List Int
  | [] => [x]
  | y :: rest => if x ≤ y then x :: y :: rest else y :: insertSorted x rest

/-- Ascending insertion sort. -/
def sortInts : List Int → List Int
  | [] => []
  | x :: rest => insertSorted x (sortInts rest)

/-- Python `sorted(set(ids))`. -/
def sortedDedup (l : List Int) : List Int := sortInts l.dedup

/-- The batch partition `item_ids[batch_start : batch_start + 100]` for
`batch_start in range(0, len(item_ids), 100)`. -/
def chunksGo : Nat → List Int → List (List Int)
  | _, [] => []
  | 0, _ :: _ => []
  | fuel + 1, c :: rest => ((c :: rest).take 100) :: chunksGo fuel ((c :: rest).drop 100)

/-- Fuel wrapper: each step consumes at least one element, so the length of the
list is enough fuel for `chunksGo` to process every batch. -/
def chunks100 (l : List Int) : List (List Int) := chunksGo l.length l

/-- Accumulator of the batch loop of `_refresh_server_impl`: collected market
values, processed ids, failed and total batch counters, and the effects emitted
so far. -/
structure BatchAcc where
  marketValues : List (Int × Int)
  processedIds : List Int
  failed : Nat
  total : Nat
  effs : List Eff

/-- The batch loop of `_refresh_server_impl`: fetch each batch in order,
merging successful values (`market_values.update`), extending the processed-id
set, and counting failures.  `processedIds` is a list with set-membership
semantics (`processed_ids.update(batch)`). -/
def runBatches (env : Env) (server : String) :
    List (List Int) → Nat → BatchAcc → BatchAcc
  | [], _, acc => acc
  | b :: rest, i, acc =>
    let acc1 :=
      { acc with
        total := acc.total + 1,
        effs := acc.effs ++ [Eff.netMarketBatch server b] }
    match env.batchOutcome i with
    | none =>
      runBatches env server rest (i + 1) { acc1 with failed := acc1.failed + 1 }
    | some vals =>
      runBatches env server rest (i + 1)
        { acc1 with
          marketValues := dmerge acc1.marketValues vals,
          processedIds := acc1.processedIds ++ b }

/-- The skip-path result dict. -/
def skipResult (server : String) : RDict :=
  [("server", .rstr server), ("updated_items", .rint 0),
   ("items_without_market_price", .rint 0), ("items_missing_ids", .rint 0),
   ("skipped", .rbool true)]

/-- The resolver-failure result dict. -/
def itemIdsErrorResult (server : String) : RDict :=
  [("server", .rstr server), ("error", .rstr "item_ids")]

/-- The summary result dict of a completed (non-skipped) refresh. -/
def summaryResult (server : String) (updated withoutPrice missingIds batches failedBatches : Nat) :
    RDict :=
  [("server", .rstr server), ("updated_items", .rint updated),
   ("items_without_market_price", .rint withoutPrice),
   ("items_missing_ids", .rint missingIds), ("batches", .rint batches),
   ("failed_batches", .rint failedBatches)]

/-- The metadata as persisted at the end of a non-skip run: the remote
`last_update` is stored only when truthy (`if last_update_remote:`) and
`last_refresh_at` is always refreshed. -/
def metaAfterRun (st : FsState) (env : Env) (server : String) : Meta :=
  { lastUpdate :=
      (match extractLastUpdate env.worldResp server with
       | some t => if t = "" then (loadMeta st.metaFile).lastUpdate
         else dinsert (loadMeta st.metaFile).lastUpdate server t
       | none => (loadMeta st.metaFile).lastUpdate),
    lastRefreshAt := dinsert (loadMeta st.metaFile).lastRefreshAt server env.now }

/-- The non-skip tail of `_refresh_server_impl`, entered once the name-to-id
mapping `m0` has been obtained (`fetched`: it came from `fetch_item_ids` rather
than the cache, so the cache file is written): alias augmentation, id
attachment, the batch loop, the conditional catalog update and write, and the
metadata write. -/
def nonSkipRun (st : FsState) (env : Env) (server : String)
    (m0 : List (String × Int)) (fetched : Bool) : RDict × FsState × List Eff :=
  let st1 : FsState :=
    if fetched then { st with idsCache := some { fresh := true, items := some m0 } }
    else st
  let eff1 := if fetched then [Eff.netWorldData server, Eff.writeIdsCache]
    else [Eff.netWorldData server]
  let nameToId := withAliases m0
  let ac := apply_item_ids st1.creatureItems nameToId
  let ad := apply_item_ids st1.deliveryItems nameToId
  let itemIds := sortedDedup (ac.2 ++ ad.2)
  let bres := runBatches env server (chunks100 itemIds) 0
    { marketValues := [], processedIds := [], failed := 0, total := 0, effs := eff1 }
  let afterBatches :
      (List Item × List Item × Nat × Nat × Nat × List Eff) :=
    if bres.processedIds.isEmpty then
      (st1.creatureItems, st1.deliveryItems, 0, 0, 0, bres.effs)
    else
      let uc := update_items_with_prices ac.1 nameToId (some bres.marketValues)
        (some bres.processedIds)
      let ud := update_items_with_prices ad.1 nameToId (some bres.marketValues)
        (some bres.processedIds)
      (uc.1, ud.1, uc.2.1 + ud.2.1, uc.2.2.1 + ud.2.2.1, uc.2.2.2 + ud.2.2.2,
        bres.effs ++ [Eff.writeCreature, Eff.writeDelivery])
  let st2 : FsState :=
    { st1 with
      creatureItems := afterBatches.1,
      deliveryItems := afterBatches.2.1,
      metaFile := some (some (metaAfterRun st env server)) }
  (summaryResult server afterBatches.2.2.1 afterBatches.2.2.2.1 afterBatches.2.2.2.2.1
      bres.total bres.failed,
    st2, afterBatches.2.2.2.2.2 ++ [Eff.writeMeta])

/-- Embedding of `MarketRefresher._refresh_server_impl`: load the metadata,
fetch world data, either take the freshness-gate skip path, fail on id
resolution, or run the batch pipeline through `nonSkipRun`.  Returns the
result dict, the final persistent state and the ordered effect trace. -/
def refreshImpl (st : FsState) (env : Env) (server : String) :
    RDict × FsState × List Eff :=
  let meta := loadMeta st.metaFile
  let eff0 : List Eff := [.netWorldData server]
  if skipCond st env server then
    let meta1 : Meta := { meta with lastRefreshAt := dinsert meta.lastRefreshAt server env.now }
    (skipResult server, { st with metaFile := some (some meta1) }, eff0 ++ [.writeMeta])
  else
    match cachedMapping st.idsCache with
    | some m => nonSkipRun st env server m false
    | none =>
      match fetch_item_ids st.dump with
      | .error _ => (itemIdsErrorResult server, st, eff0)
      | .ok m => nonSkipRun st env server m true

/-- Python `result.setdefault(key, value)` on a result dict. -/
def rsetdefault (d : RDict) (k : String) (v : RVal) : RDict :=
  match dlookup d k with
  | some _ => d
  | none => d ++ [(k, v)]

/-- In-memory `_ServerFlight` record: the lock and condition variable are
modelled by the machine's atomic steps, the data fields directly. -/
structure Flight where
  inProgress : Bool
  waiters : Nat
  lastResult : Option RDict
deriving DecidableEq, Repr

/-- The `last_result` dict written by the `finally` block of `refresh_server`:
`{"server": server, "duration_seconds": duration, **(result or {})}`, where
`result` is still `None` when the run raised. -/
def mkLastResult (server : String) (dur : ℚ) (outcome : Except String RDict) : RDict :=
  dmerge [("server", .rstr server), ("duration_seconds", .rrat dur)]
    (match outcome with
     | .ok r => r
     | .error _ => [])

/-- The result built by a joining caller:
`dict(flight.last_result or {})` followed by
`setdefault("server", server)` and `setdefault("status", "joined")`. -/
def joinedResult (server : String) (lastResult : Option RDict) : RDict :=
  rsetdefault (rsetdefault (lastResult.getD []) "server" (.rstr server))
    "status" (.rstr "joined")

/-- Control point of one thread inside `refresh_server`.  `start`: about to
take the flight lock and test `in_progress`; `waiting`: has incremented
`waiters` and is blocked in the `condition.wait()` loop; `running`: has set
`in_progress` and is executing `_refresh_server_impl`; `finishing`: the impl
returned or raised, about to run the `finally` block; `done`: returned (the
`Bool` records whether this caller joined an existing run). -/
instance : DecidableEq (Except String RDict) := fun a b =>
  match a, b with
  | .error x, .error y => decidable_of_iff (x = y) (by simp)
  | .ok x, .ok y => decidable_of_iff (x = y) (by simp)
  | .error _, .ok _ => isFalse (by simp)
  | .ok _, .error _ => isFalse (by simp)

inductive PC where
  | start
  | waiting
  | running
  | finishing (outcome : Except String RDict)
  | done (outcome : Except String RDict) (joined : Bool)
deriving DecidableEq, Repr

/-- A thread is inside the run section (holds the in-progress flag). -/
def busyPC : PC → Bool
  | .running => true
  | .finishing _ => true
  | _ => false

/-- A thread has executed its own pipeline run to the end (passed through the
`finally` block). -/
def ranPC : PC → Bool
  | .finishing _ => true
  | .done _ false => true
  | _ => false

/-- Configuration of the two-caller single-flight machine: the shared flight
record, both thread control points, and the trace of pipeline runs (`false` =
first thread, `true` = second thread). -/
structure MConfig where
  flight : Flight
  pcA : PC
  pcB : PC
  trace : List Bool
deriving DecidableEq, Repr

/-- One atomic step of a thread of `refresh_server`, given its pipeline
outcome and measured duration.  Each case is one lock-protected region of the
source: the entry check, the wait-loop re-check after a wakeup (a thread at
`waiting` can only proceed once `in_progress` is false again), the pipeline
run itself (emits a trace event), and the `finally` block (clear
`in_progress`, overwrite `last_result`, `notify_all`). -/
def threadStep (server : String) (implOutcome : Except String RDict) (dur : ℚ)
    (f : Flight) (pc : PC) : Flight × PC × Bool :=
  match pc with
  | .start =>
    if f.inProgress then ({ f with waiters := f.waiters + 1 }, .waiting, false)
    else ({ f with inProgress := true }, .running, false)
  | .waiting =>
    if f.inProgress then (f, .waiting, false)
    else
      ({ f with waiters := f.waiters - 1 },
        .done (.ok (joinedResult server f.lastResult)) true, false)
  | .running => (f, .finishing implOutcome, true)
  | .finishing o =>
    ({ f with
       inProgress := false,
       lastResult := some (mkLastResult server dur o) },
      .done o false, false)
  | .done o j => (f, .done o j, false)

/-- Step of the two-thread machine: the scheduler picks a thread (`false` =
thread A, `true` = thread B) and it performs its next atomic step. -/
def mstep (server : String) (implOut : Bool → Except String RDict) (dur : Bool → ℚ)
    (c : MConfig) (who : Bool) : MConfig :=
  if who then
    let s := threadStep server (implOut true) (dur true) c.flight c.pcB
    { flight := s.1, pcA := c.pcA, pcB := s.2.1,
      trace := c.trace ++ if s.2.2 then [true] else [] }
  else
    let s := threadStep server (implOut false) (dur false) c.flight c.pcA
    { flight := s.1, pcA := s.2.1, pcB := c.pcB,
      trace := c.trace ++ if s.2.2 then [false] else [] }

/-- Run the machine under a schedule (list of scheduler picks). -/
def mrun (server : String) (implOut : Bool → Except String RDict) (dur : Bool → ℚ)
    (f0 : Flight) (sched : List Bool) : MConfig :=
  sched.foldl (mstep server implOut dur)
    { flight := f0, pcA := .start, pcB := .start, trace := [] }

/-- Module-level names bound in `scripts/refresh_market_prices.py` (imports,
constants, classes and functions), the namespace in which the argparse default
expression of `main()` is evaluated. -/
def moduleBindings : List String :=
  ["annotations", "argparse", "html", "json", "random", "re", "threading",
   "time", "defaultdict", "dataclass", "datetime", "timedelta", "timezone",
   "HTMLParser", "Path", "Callable", "Iterable", "HTTPError", "URLError",
   "urlencode", "Request", "urlopen",
   "MARKET_VALUES_URL", "WORLD_DATA_URL", "USER_AGENT",
   "ROOT_DIR", "RESOURCE_DIR", "CACHE_FILE", "ITEM_IDS_CACHE_FILE",
   "ITEM_IDS_DUMP_PATH", "MARKET_REFRESH_META_FILE",
   "CACHE_TTL", "THROTTLE_SECONDS", "RETRY_JITTER_RANGE",
   "BACKOFF_NO_RETRY_AFTER", "SERVER_ERROR_BACKOFF", "BATCH_DELAY_SECONDS",
   "Throttle", "HtmlCell", "TableParser", "iso_timestamp", "normalize_header",
   "normalize_name", "load_market_refresh_meta", "save_market_refresh_meta",
   "strip_highlight_wrappers", "fetch_html", "parse_tables", "find_table",
   "find_column", "fetch_item_ids", "build_alias_mapping", "load_json",
   "save_json", "load_cache", "load_item_ids_cache", "save_item_ids_cache",
   "item_ids_cache_is_fresh", "cache_is_fresh", "save_cache",
   "_decode_json_response", "apply_item_ids", "update_items_with_prices",
   "refresh_market_prices", "MarketRefresher", "_ServerFlight", "main"]

/-- Evaluation of a global name reference in the module namespace: a name not
bound at module level raises `NameError`. -/
def lookupGlobal (n : String) : Except String Unit :=
  if moduleBindings.contains n then .ok () else .error ("NameError: name " ++ n)

/-- Embedding of `main()` up to its first effect.  `main` builds the argument
parser: the first two `add_argument` calls carry literal defaults, the third
evaluates the module-global name `DELAY_BETWEEN_BATCHES_SECONDS` as its
default.  Only if all parser setup succeeds would `main` go on to construct a
`MarketRefresher` and call `refresh_server` (the single refresh effect of the
model); an exception during setup propagates with no effects performed. -/
def mainRun : Except String Unit × List String :=
  match lookupGlobal "DELAY_BETWEEN_BATCHES_SECONDS" with
  | .error e => (.error e, [])
  | .ok _ => (.ok (), ["refresh_server"])

/-- Every character of the list is whitespace. -/
def allWs (l : List Char) : Bool := l.all isPySpace

/-- The list starts with a non-whitespace character. -/
def startsNonWs : List Char → Bool
  | [] => false
  | c :: _ => !isPySpace c

/-- Join tokens with single spaces (the shape of a normalized name). -/
def joinTokens : List (List Char) → List Char
  | [] => []
  | t :: ts =>
    match ts with
    | [] => t
    | _ :: _ => t ++ ' ' :: joinTokens ts

/-- Tokens of a character list with each character canonicalised. -/
def tokensCanon (l : List Char) : List (List Char) :=
  (tokens l).map (List.map canonChar)

/-- Generative description of two character lists that differ only in letter
case, in typographic-versus-plain apostrophe style, or in the composition of
corresponding (nonempty) internal whitespace runs. -/
inductive SimilarCore : List Char → List Char → Prop where
  | nil : SimilarCore [] []
  | sym {c d : Char} {s t : List Char} : isPySpace c = false → isPySpace d = false →
      canonChar c = canonChar d → SimilarCore s t → SimilarCore (c :: s) (d :: t)
  | run {u v : List Char} {s t : List Char} : u ≠ [] → v ≠ [] →
      allWs u = true → allWs v = true →
      SimilarCore s t → SimilarCore (u ++ s) (v ++ t)

/-- Two strings differ only in letter case, leading/trailing/internal
whitespace runs, or apostrophe style: arbitrary (possibly empty) whitespace
padding at either end around cores related by `SimilarCore`. -/
def Similar (s t : String) : Prop :=
  ∃ p q p2 q2 s2 t2,
    allWs p = true ∧ allWs q = true ∧ allWs p2 = true ∧ allWs q2 = true ∧
    s.toList = p ++ s2 ++ q ∧ t.toList = p2 ++ t2 ++ q2 ∧ SimilarCore s2 t2

/-- No leading and no trailing whitespace. -/
def noEdgeWs (l : List Char) : Prop :=
  (∀ c, l.head? = some c → isPySpace c = false) ∧
  (∀ c, l.getLast? = some c → isPySpace c = false)

/-- Number of failed batches among the first `n` batch indices of a run. -/
def countFailedBatches (env : Env) (n : Nat) : Nat :=
  ((List.range n).filter (fun i => (env.batchOutcome i).isNone)).length

/-- Ids of the batches that succeed, in order, for batch indices starting at
`i`: the contribution of each loop iteration to `processed_ids`. -/
def processedFrom (env : Env) : Nat → List (List Int) → List Int
  | _, [] => []
  | i, b :: rest =>
    (match env.batchOutcome i with
     | some _ => b
     | none => []) ++ processedFrom env (i + 1) rest

/-- Per-item effect of `apply_item_ids`: attach the resolved id if any. -/
def applyOne (nameToId : List (String × Int)) (it : Item) : Item :=
  match resolvedId nameToId it with
  | some i => { it with id := some i }
  | none => it

/-- The item-id list collected from both catalogs,
`sorted(set(item_ids))`. -/
def pipelineItemIds (st : FsState) (nameToId : List (String × Int)) : List Int :=
  sortedDedup ((apply_item_ids st.creatureItems nameToId).2 ++
    (apply_item_ids st.deliveryItems nameToId).2)

/-- The batch phase of a cache-hit run: the loop over the 100-element chunks of
the collected item ids, starting from the empty accumulator that already
carries the world-data network effect. -/
def batchRun (st : FsState) (env : Env) (server : String) (m0 : List (String × Int)) :
    BatchAcc :=
  runBatches env server (chunks100 (pipelineItemIds st (withAliases m0))) 0
    { marketValues := [], processedIds := [], failed := 0, total := 0,
      effs := [.netWorldData server] }

/-- Every binding of `small` is a binding of `big`. -/
def coversDict (big small : RDict) : Prop :=
  ∀ k v, dlookup small k = some v → dlookup big k = some v

/-- The keys of a result dict are pairwise distinct. -/
def keysNodup (d : RDict) : Prop := (d.map Prod.fst).Nodup

/-- Concrete state for witnesses: no metadata yet, one-item catalog, no id
cache, missing reference dump. -/
def sampleErrSt : FsState :=
  { metaFile := none,
    creatureItems := [{ name := "Foo", id := some 1, gold := 7 }],
    deliveryItems := [],
    idsCache := none,
    dump := none }

/-- Concrete environment for witnesses: world data announcing a new scan. -/
def sampleErrEnv : Env :=
  { worldResp := .jobj [("servers", .jobj [("Antica", .jobj [("last_update", .jstr "X")])])],
    now := "NOW",
    batchOutcome := fun _ => none }

/-- Concrete state whose stored last_update matches the remote one. -/
def sampleSkipSt : FsState :=
  { metaFile := some (some { lastUpdate := [("Antica", "T1")], lastRefreshAt := [] }),
    creatureItems := [{ name := "Foo", id := some 1, gold := 7 }],
    deliveryItems := [{ name := "Bar", id := some 2, gold := 3 }],
    idsCache := none,
    dump := none }

/-- Concrete environment whose world data repeats the stored timestamp. -/
def sampleSkipEnv : Env :=
  { worldResp := .jobj [("servers", .jobj [("Antica", .jobj [("last_update", .jstr "T1")])])],
    now := "NOW",
    batchOutcome := fun _ => none }

/-- A thread has completed its own pipeline run and returned (reached `done`
through the `finally` block, as the run's owner rather than a joiner). -/
def finishedRunPC : PC → Bool
  | .done _ false => true
  | _ => false

/-- A thread currently owns the flight or already finished its own run (the
states another caller can observe after it found `in_progress` set). -/
def engagedPC (pc : PC) : Bool := busyPC pc || finishedRunPC pc

/-- Invariant of the two-caller single-flight machine, preserved by every
step: outcome bookkeeping for the running/finished thread, mutual exclusion of
the run section, the `in_progress` flag mirrors ownership, the trace counts
one pipeline run per owner, `last_result` holds the `finally`-written dict of
the finished owner, a waiting thread always has an engaged counterpart, and a
joined thread returned the joined copy of the owner's `last_result`. -/
structure MInv (server : String) (implOut : Bool → Except String RDict) (dur : Bool → ℚ)
    (c : MConfig) : Prop where
  outAfin : ∀ o, c.pcA = .finishing o → o = implOut false
  outAdone : ∀ o, c.pcA = .done o false → o = implOut false
  outBfin : ∀ o, c.pcB = .finishing o → o = implOut true
  outBdone : ∀ o, c.pcB = .done o false → o = implOut true
  mutex : ¬(busyPC c.pcA = true ∧ busyPC c.pcB = true)
  ip : c.flight.inProgress = (busyPC c.pcA || busyPC c.pcB)
  traceA : c.trace.count false = (if ranPC c.pcA then 1 else 0)
  traceB : c.trace.count true = (if ranPC c.pcB then 1 else 0)
  lrA : finishedRunPC c.pcA = true → finishedRunPC c.pcB = false →
    c.flight.lastResult = some (mkLastResult server (dur false) (implOut false))
  lrB : finishedRunPC c.pcB = true → finishedRunPC c.pcA = false →
    c.flight.lastResult = some (mkLastResult server (dur true) (implOut true))
  waitA : c.pcA = .waiting → engagedPC c.pcB = true
  waitB : c.pcB = .waiting → engagedPC c.pcA = true
  joinA : ∀ o, c.pcA = .done o true →
    o = .ok (joinedResult server (some (mkLastResult server (dur true) (implOut true)))) ∧
      finishedRunPC c.pcB = true
  joinB : ∀ o, c.pcB = .done o true →
    o = .ok (joinedResult server (some (mkLastResult server (dur false) (implOut false)))) ∧
      finishedRunPC c.pcA = true

/-- Concrete pipeline result for the single-flight counterexample. -/
def cexRa : RDict := [("server", .rstr "Antica"), ("updated_items", .rint 4)]

/-- Concrete outcomes: the first caller's run returns `cexRa`. -/
def cexImplOut : Bool → Except String RDict := fun w => if w then .ok [] else .ok cexRa

/-- Schedule: A enters and runs, B enters and waits, A finishes, B wakes. -/
def cexSched : List Bool := [false, true, false, false, true]

/-- Idle initial flight. -/
def cexFlight : Flight := { inProgress := false, waiters := 0, lastResult := none }

/-- The joiner's result in the counterexample run: the owner's summary plus
`duration_seconds` and `status`. -/
def cexJoined : RDict :=
  [("server", .rstr "Antica"), ("duration_seconds", .rrat 0),
   ("updated_items", .rint 4), ("status", .rstr "joined")]

/-- A stale-but-valid previous result sitting in `last_result`. -/
def cexPrior : RDict := [("server", .rstr "Antica"), ("updated_items", .rint 4)]

/-- Outcomes where the first caller's run raises. -/
def cexErrImplOut : Bool → Except String RDict :=
  fun w => if w then .ok [] else .error "boom"

/-- Initial flight carrying the previous result. -/
def cexErrFlight : Flight := { inProgress := false, waiters := 0, lastResult := some cexPrior }

/-- What the joined waiter actually receives after the owner's run raised. -/
def cexErrJoined : RDict :=
  [("server", .rstr "Antica"), ("duration_seconds", .rrat 0), ("status", .rstr "joined")]

/-- Concrete state for the partial-failure witness: 101 catalog items with
preset ids 0..100, so the run has two batches. -/
def sampleBatchSt : FsState :=
  { metaFile := some (some { lastUpdate := [], lastRefreshAt := [] }),
    creatureItems :=
      (List.range 101).map (fun i => { name := "it", id := some (Int.ofNat i), gold := 5 }),
    deliveryItems := [],
    idsCache := some { fresh := true, items := some [] },
    dump := none }

/-- Concrete environment for the partial-failure witness: batch 0 succeeds,
batch 1 fails after its retries. -/
def sampleBatchEnv : Env :=
  { worldResp := .jobj [("servers", .jobj [("Antica", .jobj [("last_update", .jstr "T2")])])],
    now := "NOW",
    batchOutcome := fun i => if i = 0 then some [(1, 10)] else none }

/-! Dictionary lemmas. -/

theorem dlookup_cons {α β : Type} [DecidableEq α] (p : α × β) (rest : List (α × β)) (k : α) :
    dlookup (p :: rest) k = if p.1 = k then some p.2 else dlookup rest k := by
  unfold dlookup
  rw [List.find?_cons]
  by_cases h : p.1 = k <;> simp [h]

theorem dlookup_nil {α β : Type} [DecidableEq α] (k : α) :
    dlookup ([] : List (α × β)) k = none := rfl

theorem dlookup_map_overwrite_self {α β : Type} [DecidableEq α] (d : List (α × β)) (k : α)
    (v : β) (h : (dlookup d k).isSome) :
    dlookup (d.map (fun p => if p.1 = k then (k, v) else p)) k = some v := by
  induction d with
  | nil => simp [dlookup_nil] at h
  | cons p rest ih =>
    by_cases hp : p.1 = k
    · simp [hp, dlookup_cons]
    · rw [dlookup_cons] at h
      simp only [hp, if_false] at h
      simp only [List.map_cons, hp, if_false, dlookup_cons]
      simpa [hp] using ih h

theorem dlookup_map_overwrite_ne {α β : Type} [DecidableEq α] (d : List (α × β)) (k k2 : α)
    (v : β) (h : k2 ≠ k) :
    dlookup (d.map (fun p => if p.1 = k then (k, v) else p)) k2 = dlookup d k2 := by
  induction d with
  | nil => simp
  | cons p rest ih =>
    by_cases hp : p.1 = k
    · simp only [List.map_cons, hp, if_true, dlookup_cons]
      simp only [if_neg (Ne.symm h)]
      exact ih
    · simp only [List.map_cons, hp, if_false, dlookup_cons]
      rw [ih]

theorem dlookup_append_left {α β : Type} [DecidableEq α] (a b : List (α × β)) (k : α) (v : β)
    (h : dlookup a k = some v) : dlookup (a ++ b) k = some v := by
  induction a with
  | nil => simp [dlookup_nil] at h
  | cons p rest ih =>
    rw [dlookup_cons] at h
    rw [List.cons_append, dlookup_cons]
    by_cases hp : p.1 = k
    · simpa [hp] using h
    · rw [if_neg hp] at h ⊢
      exact ih h

theorem dlookup_append_none {α β : Type} [DecidableEq α] (a b : List (α × β)) (k : α)
    (h : dlookup a k = none) : dlookup (a ++ b) k = dlookup b k := by
  induction a with
  | nil => simp
  | cons p rest ih =>
    rw [dlookup_cons] at h
    rw [List.cons_append, dlookup_cons]
    by_cases hp : p.1 = k
    · simp [hp] at h
    · rw [if_neg hp] at h ⊢
      exact ih h

theorem dinsert_cond {α β : Type} [DecidableEq α] (d : List (α × β)) (k : α) :
    (d.find? (fun p => p.1 = k)).isSome = (dlookup d k).isSome := by
  unfold dlookup
  cases d.find? (fun p => p.1 = k) <;> rfl

theorem dlookup_dinsert_self {α β : Type} [DecidableEq α] (d : List (α × β)) (k : α) (v : β) :
    dlookup (dinsert d k v) k = some v := by
  unfold dinsert
  by_cases h : (dlookup d k).isSome
  · rw [dinsert_cond, if_pos h]
    exact dlookup_map_overwrite_self d k v h
  · rw [dinsert_cond, if_neg h]
    have hn : dlookup d k = none := by
      cases hd : dlookup d k
      · rfl
      · rw [hd] at h; simp at h
    rw [dlookup_append_none _ _ _ hn, dlookup_cons]
    simp

theorem dlookup_dinsert_ne {α β : Type} [DecidableEq α] (d : List (α × β)) (k k2 : α) (v : β)
    (h : k2 ≠ k) : dlookup (dinsert d k v) k2 = dlookup d k2 := by
  unfold dinsert
  by_cases hs : (dlookup d k).isSome
  · rw [dinsert_cond, if_pos hs]
    exact dlookup_map_overwrite_ne d k k2 v h
  · rw [dinsert_cond, if_neg hs]
    cases hd : dlookup d k2 with
    | some w => exact dlookup_append_left _ _ _ _ hd
    | none =>
      rw [dlookup_append_none _ _ _ hd, dlookup_cons]
      rw [if_neg (Ne.symm h)]
      rfl

theorem dlookup_eq_none_of_not_mem {α β : Type} [DecidableEq α] (d : List (α × β)) (k : α)
    (h : k ∉ d.map Prod.fst) : dlookup d k = none := by
  induction d with
  | nil => rfl
  | cons p rest ih =>
    simp only [List.map_cons, List.mem_cons, not_or] at h
    rw [dlookup_cons, if_neg (fun hh => h.1 hh.symm)]
    exact ih h.2

theorem dmerge_lookup_right_none {α β : Type} [DecidableEq α] (a b : List (α × β)) (k : α)
    (h : k ∉ b.map Prod.fst) : dlookup (dmerge a b) k = dlookup a k := by
  induction b generalizing a with
  | nil => rfl
  | cons p rest ih =>
    simp only [List.map_cons, List.mem_cons, not_or] at h
    show dlookup (dmerge (dinsert a p.1 p.2) rest) k = _
    rw [ih _ h.2, dlookup_dinsert_ne _ _ _ _ h.1]

theorem dmerge_covers {α β : Type} [DecidableEq α] (a b : List (α × β)) (k : α) (v : β)
    (hn : (b.map Prod.fst).Nodup) (h : dlookup b k = some v) :
    dlookup (dmerge a b) k = some v := by
  induction b generalizing a with
  | nil => simp [dlookup_nil] at h
  | cons p rest ih =>
    rw [dlookup_cons] at h
    simp only [List.map_cons, List.nodup_cons] at hn
    by_cases hp : p.1 = k
    · rw [if_pos hp] at h
      show dlookup (dmerge (dinsert a p.1 p.2) rest) k = _
      rw [dmerge_lookup_right_none _ _ _ (hp ▸ hn.1), hp, dlookup_dinsert_self]
      exact h
    · rw [if_neg hp] at h
      exact ih _ hn.2 h

theorem dmerge_lookup_none {α β : Type} [DecidableEq α] (a b : List (α × β)) (k : α)
    (ha : dlookup a k = none) (hb : dlookup b k = none) :
    dlookup (dmerge a b) k = none := by
  induction b generalizing a with
  | nil => exact ha
  | cons p rest ih =>
    rw [dlookup_cons] at hb
    by_cases hp : p.1 = k
    · simp [hp] at hb
    · rw [if_neg hp] at hb
      show dlookup (dmerge (dinsert a p.1 p.2) rest) k = none
      exact ih _ (by rw [dlookup_dinsert_ne _ _ _ _ (fun hh => hp hh.symm)]; exact ha) hb

theorem rsetdefault_preserves (d : RDict) (k k2 : String) (v v2 : RVal)
    (h : dlookup d k = some v) : dlookup (rsetdefault d k2 v2) k = some v := by
  unfold rsetdefault
  cases dlookup d k2
  · exact dlookup_append_left _ _ _ _ h
  · exact h

theorem dlookup_rsetdefault_of_none (d : RDict) (k : String) (v : RVal)
    (h : dlookup d k = none) : dlookup (rsetdefault d k v) k = some v := by
  unfold rsetdefault
  rw [h, dlookup_append_none _ _ _ h, dlookup_cons]
  simp

theorem dlookup_rsetdefault_ne (d : RDict) (k k2 : String) (v : RVal) (h : k ≠ k2) :
    dlookup (rsetdefault d k2 v) k = dlookup d k := by
  unfold rsetdefault
  cases hd : dlookup d k2
  · cases hk : dlookup d k with
    | some w => exact dlookup_append_left _ _ _ _ hk
    | none =>
      rw [dlookup_append_none _ _ _ hk, dlookup_cons]
      rw [if_neg (Ne.symm h)]
      rfl
  · rfl

/-! Claim theorems: concrete catalog update scenario. -/

/-- C6: on the catalog [Foo (id 1, gold 0), Bar (id 2, gold 0)] with fetched
prices {1: 10, 2: -1}, `update_items_with_prices` sets Foo's gold to 10 and
Bar's gold to 0 and returns updated_count 2, no_price_count 1 (and
missing_ids 0). -/
theorem update_items_concrete_scenario :
    update_items_with_prices
      [{ name := "Foo", id := some 1, gold := 0 },
       { name := "Bar", id := some 2, gold := 0 }]
      [] (some [(1, 10), (2, -1)]) none =
      ([{ name := "Foo", id := some 1, gold := 10 },
        { name := "Bar", id := some 2, gold := 0 }], 2, 1, 0) := by
  rfl

/-- C10: the command-line entry point fails during argument-parser setup with a
`NameError` for the unbound module global `DELAY_BETWEEN_BATCHES_SECONDS`,
before any refresh work is performed (its effect list is empty). -/
theorem main_raises_name_error :
    mainRun = (.error "NameError: name DELAY_BETWEEN_BATCHES_SECONDS", []) := by
  rfl

/-! Retry-after handling. -/

theorem pyFloatOfString_two : pyFloatOfString "2" = some 2 := by decide

/-- C7: when an attempt of the market-batch fetch receives HTTP 429 with
header `Retry-After: 2` and it is not the final attempt, the wait slept before
the next attempt is at least 2 seconds plus the jitter drawn from [0.1, 0.3)
for that attempt. -/
theorem retry_after_honored (outcome : Nat → AttemptOutcome)
    (jitter backoffDraw serverBackoff throttleDelay : Nat → ℚ) (a r : Nat)
    (h429 : outcome a = .httpErr 429 (some "2")) (hnf : a ≠ 3)
    (hj1 : 1/10 ≤ jitter a) (hj2 : jitter a < 3/10) :
    ∃ w rest,
      (fetchLoop outcome jitter backoffDraw serverBackoff throttleDelay (r + 1) a).2 =
        w :: rest ∧ 2 + jitter a ≤ w := by
  refine ⟨computeRetryAfter (some "2") (jitter a) (backoffDraw a) (throttleDelay a),
    (fetchLoop outcome jitter backoffDraw serverBackoff throttleDelay r (a + 1)).2, ?_, ?_⟩
  · simp [fetchLoop, h429, hnf]
  · have h2 : computeRetryAfter (some "2") (jitter a) (backoffDraw a) (throttleDelay a) =
        max (2 + jitter a) (throttleDelay a) := by
      unfold computeRetryAfter
      simp [pyFloatOfString_two]
    rw [h2]
    exact le_max_left _ _

/-- Witness for C7 at attempt 1 with jitter draw 1/5 and zero throttle delay. -/
theorem retry_after_honored_witness :
    (fun _ : Nat => AttemptOutcome.httpErr 429 (some "2")) 1 =
        AttemptOutcome.httpErr 429 (some "2") ∧
    (1 : Nat) ≠ 3 ∧ (1/10 : ℚ) ≤ (fun _ : Nat => (1/5 : ℚ)) 1 ∧
    (fun _ : Nat => (1/5 : ℚ)) 1 < 3/10 ∧
    ∃ w rest,
      (fetchLoop (fun _ => AttemptOutcome.httpErr 429 (some "2")) (fun _ => (1/5 : ℚ))
          (fun _ => 0) (fun _ => 0) (fun _ => 0) (2 + 1) 1).2 = w :: rest ∧
        2 + (fun _ : Nat => (1/5 : ℚ)) 1 ≤ w :=
  ⟨rfl, by decide, by norm_num, by norm_num,
    retry_after_honored (fun _ => AttemptOutcome.httpErr 429 (some "2"))
      (fun _ => (1/5 : ℚ)) (fun _ => 0) (fun _ => 0) (fun _ => 0) 1 2 rfl (by decide)
      (by norm_num) (by norm_num)⟩

/-! Parsed market values. -/

theorem mem_dinsert {α β : Type} [DecidableEq α] {q : α × β} {d : List (α × β)} {k : α}
    {v : β} (h : q ∈ dinsert d k v) : q ∈ d ∨ q.2 = v := by
  unfold dinsert at h
  split at h
  · obtain ⟨p, hp, hq⟩ := List.mem_map.mp h
    by_cases hpk : p.1 = k
    · right
      rw [if_pos hpk] at hq
      rw [← hq]
    · left
      rw [if_neg hpk] at hq
      rw [← hq]
      exact hp
  · rcases List.mem_append.mp h with hm | hm
    · exact Or.inl hm
    · right
      rw [List.mem_singleton.mp hm]

theorem parseMarketEntry_nonneg (acc : List (Int × Int)) (entry : JVal)
    (h : ∀ p ∈ acc, 0 ≤ p.2) : ∀ p ∈ parseMarketEntry acc entry, 0 ≤ p.2 := by
  intro p hp
  unfold parseMarketEntry at hp
  split at hp
  · split at hp
    · exact h p hp
    · split at hp
      · rcases mem_dinsert hp with hm | hm
        · exact h p hm
        · rw [hm]
      · rcases mem_dinsert hp with hm | hm
        · exact h p hm
        · rw [hm]
      · split at hp
        · rcases mem_dinsert hp with hm | hm
          · exact h p hm
          · rw [hm]
        · rcases mem_dinsert hp with hm | hm
          · exact h p hm
          · rw [hm]
            split
            · exact le_refl 0
            · exact le_max_left _ _
  · exact h p hp

theorem foldl_parseMarketEntry_nonneg (entries : List JVal) (acc : List (Int × Int))
    (h : ∀ p ∈ acc, 0 ≤ p.2) : ∀ p ∈ entries.foldl parseMarketEntry acc, 0 ≤ p.2 := by
  induction entries generalizing acc with
  | nil => exact h
  | cons e rest ih => exact ih _ (parseMarketEntry_nonneg acc e h)

theorem parse_market_values_shape (payload : JVal) (m : List (Int × Int))
    (hm : parse_market_values payload = some m) :
    m = [] ∨ ∃ entries : List JVal, m = entries.foldl parseMarketEntry [] := by
  unfold parse_market_values parseItemsList at hm
  split at hm
  · left
    exact (Option.some.inj hm).symm
  · split at hm
    · split at hm
      · right
        exact ⟨_, (Option.some.inj hm).symm⟩
      · left
        exact (Option.some.inj hm).symm
      · left
        exact (Option.some.inj hm).symm
      · exact absurd hm (by simp)
    · left
      exact (Option.some.inj hm).symm

/-- C9 (amended): every price returned by `_parse_market_values` is
non-negative; non-dict entries and entries whose id does not coerce to an
integer are omitted; and a sell offer that is absent, `None`, not coercible to
an integer, or negative (in particular `-1`) is recorded as price 0.  (Python
`int` coercion accepts booleans and numeric strings, so such sell offers are
used, not zeroed.) -/
theorem parse_market_values_spec :
    (∀ payload m, parse_market_values payload = some m → ∀ p ∈ m, 0 ≤ p.2) ∧
    (∀ acc entry, (∀ fields, entry ≠ .jobj fields) → parseMarketEntry acc entry = acc) ∧
    (∀ acc fields, pyIntOfJVal (entryIdVal fields) = none →
      parseMarketEntry acc (.jobj fields) = acc) ∧
    (∀ acc fields eid, pyIntOfJVal (entryIdVal fields) = some eid →
      (dlookup fields "sell_offer" = none ∨ dlookup fields "sell_offer" = some .jnull ∨
        (∃ so, dlookup fields "sell_offer" = some so ∧ pyIntOfJVal so = none) ∨
        (∃ so v, dlookup fields "sell_offer" = some so ∧ pyIntOfJVal so = some v ∧ v < 0)) →
      parseMarketEntry acc (.jobj fields) = dinsert acc eid 0) := by
  refine ⟨?_, ?_, ?_, ?_⟩
  · intro payload m hm p hp
    rcases parse_market_values_shape payload m hm with hsh | ⟨entries, hsh⟩
    · rw [hsh] at hp
      exact absurd hp (List.not_mem_nil p)
    · rw [hsh] at hp
      exact foldl_parseMarketEntry_nonneg entries [] (by simp) p hp
  · intro acc entry h
    cases entry with
    | jobj fields => exact absurd rfl (h fields)
    | jnull => rfl
    | jbool b => rfl
    | jint n => rfl
    | jstr s => rfl
    | jarr xs => rfl
  · intro acc fields h
    simp only [parseMarketEntry]
    rw [h]
  · intro acc fields eid hid hso
    simp only [parseMarketEntry, hid]
    rcases hso with h | h | ⟨so, h, hc⟩ | ⟨so, v, h, hc, hv⟩
    · simp only [h]
    · simp only [h]
    · cases so with
      | jnull => simp only [h]
      | jbool b => simp only [h, hc]
      | jint n => simp [pyIntOfJVal] at hc
      | jstr s2 => simp only [h, hc]
      | jarr xs => simp only [h, pyIntOfJVal]
      | jobj fs => simp only [h, pyIntOfJVal]
    · cases so with
      | jnull => simp [pyIntOfJVal] at hc
      | jbool b =>
        simp only [h, hc]
        by_cases hv1 : v = -1
        · rw [if_pos hv1]
        · rw [if_neg hv1, max_eq_left (le_of_lt hv)]
      | jint n =>
        simp only [h, hc]
        by_cases hv1 : v = -1
        · rw [if_pos hv1]
        · rw [if_neg hv1, max_eq_left (le_of_lt hv)]
      | jstr s2 =>
        simp only [h, hc]
        by_cases hv1 : v = -1
        · rw [if_pos hv1]
        · rw [if_neg hv1, max_eq_left (le_of_lt hv)]
      | jarr xs => simp [pyIntOfJVal] at hc
      | jobj fs => simp [pyIntOfJVal] at hc

/-- Witness for C9: a concrete parse whose prices are all non-negative. -/
theorem parse_market_values_spec_witness :
    parse_market_values
        (.jarr [.jobj [("id", .jint 1), ("sell_offer", .jint (-1))],
                .jobj [("id", .jint 2), ("sell_offer", .jint 10)]]) =
      some [(1, 0), (2, 10)] ∧
    (∀ p ∈ ([(1, 0), (2, 10)] : List (Int × Int)), 0 ≤ p.2) :=
  ⟨by rfl,
    parse_market_values_spec.1
      (.jarr [.jobj [("id", .jint 1), ("sell_offer", .jint (-1))],
              .jobj [("id", .jint 2), ("sell_offer", .jint 10)]])
      [(1, 0), (2, 10)] (by rfl)⟩

/-- C9 counterexample: the entry `{"id": 1, "sell_offer": "5"}` carries a
non-integer (string) sell offer, yet the parser records price 5, not 0 —
Python `int("5")` coerces it. -/
theorem parse_market_values_string_counterexample :
    parse_market_values (.jarr [.jobj [("id", .jint 1), ("sell_offer", .jstr "5")]]) =
      some [(1, 5)] := by
  rfl

/-! Character-level facts for name normalization. -/

theorem char_eq_of_toNat_eq {a b : Char} (h : a.toNat = b.toNat) : a = b :=
  Char.eq_of_val_eq (UInt32.eq_of_val_eq (Fin.ext h))

theorem toNat_ofNat_valid (n : Nat) (h : n.isValidChar) : (Char.ofNat n).toNat = n := by
  unfold Char.ofNat
  rw [dif_pos h]
  rfl

theorem pyToLower_toNat (c : Char) : (pyToLower c).toNat =
    if 65 ≤ c.toNat ∧ c.toNat ≤ 90 then c.toNat + 32 else c.toNat := by
  unfold pyToLower
  split
  · rename_i h
    exact toNat_ofNat_valid _ (Or.inl (by omega))
  · rfl

theorem replChar_toNat (c : Char) : (replChar c).toNat =
    if c.toNat = 8217 then 39 else c.toNat := by
  unfold replChar
  split
  · rename_i h
    subst h
    decide
  · rename_i h
    rw [if_neg (fun hn => h (char_eq_of_toNat_eq (by rw [hn]; decide)))]


theorem canonChar_toNat (c : Char) : (canonChar c).toNat =
    if 65 ≤ (if c.toNat = 8217 then 39 else c.toNat) ∧
        (if c.toNat = 8217 then 39 else c.toNat) ≤ 90
      then (if c.toNat = 8217 then 39 else c.toNat) + 32
      else (if c.toNat = 8217 then 39 else c.toNat) := by
  unfold canonChar
  rw [pyToLower_toNat, replChar_toNat]

theorem isPySpace_toNat (c : Char) : isPySpace c =
    (c.toNat = 32 || c.toNat = 9 || c.toNat = 10 || c.toNat = 13 ||
      c.toNat = 11 || c.toNat = 12) := rfl

theorem isPySpace_pyToLower (c : Char) : isPySpace (pyToLower c) = isPySpace c := by
  rw [isPySpace_toNat, isPySpace_toNat, pyToLower_toNat]
  rw [Bool.eq_iff_iff]
  simp only [Bool.or_eq_true, decide_eq_true_eq]
  split <;> omega

theorem isPySpace_replChar (c : Char) : isPySpace (replChar c) = isPySpace c := by
  rw [isPySpace_toNat, isPySpace_toNat, replChar_toNat]
  rw [Bool.eq_iff_iff]
  simp only [Bool.or_eq_true, decide_eq_true_eq]
  split <;> omega

theorem isPySpace_canonChar (c : Char) : isPySpace (canonChar c) = isPySpace c := by
  unfold canonChar
  rw [isPySpace_pyToLower, isPySpace_replChar]

theorem canonChar_idem (c : Char) : canonChar (canonChar c) = canonChar c := by
  apply char_eq_of_toNat_eq
  rw [canonChar_toNat, canonChar_toNat]
  split_ifs <;> omega

theorem pyToLower_space : pyToLower ' ' = ' ' := by decide

theorem pyToLower_replChar_eq_canonChar (c : Char) :
    pyToLower (replChar c) = canonChar c := rfl

/-! Collapse and tokenization step equations. -/

theorem collapseWs_cons_nonws (c : Char) (x : List Char) (hc : isPySpace c = false) :
    collapseWs (c :: x) = c :: collapseWs x := by
  conv_lhs => unfold collapseWs
  rw [hc]
  simp

theorem collapseWs_ws_nil (c : Char) (hc : isPySpace c = true) :
    collapseWs [c] = [' '] := by
  conv_lhs => unfold collapseWs
  rw [hc]
  simp

theorem collapseWs_ws_ws (c d : Char) (x : List Char) (hc : isPySpace c = true)
    (hd : isPySpace d = true) : collapseWs (c :: d :: x) = collapseWs (d :: x) := by
  conv_lhs => unfold collapseWs
  rw [hc]
  simp [hd]

theorem collapseWs_ws_nonws (c d : Char) (x : List Char) (hc : isPySpace c = true)
    (hd : isPySpace d = false) : collapseWs (c :: d :: x) = ' ' :: collapseWs (d :: x) := by
  conv_lhs => unfold collapseWs
  rw [hc]
  simp [hd]

theorem tokens_cons_ws (c : Char) (x : List Char) (hc : isPySpace c = true) :
    tokens (c :: x) = tokens x := by
  conv_lhs => unfold tokens
  rw [hc]
  simp

theorem tokens_singleton_nonws (c : Char) (hc : isPySpace c = false) :
    tokens [c] = [[c]] := by
  conv_lhs => unfold tokens
  rw [hc]
  simp

theorem tokens_nonws_ws (c d : Char) (x : List Char) (hc : isPySpace c = false)
    (hd : isPySpace d = true) : tokens (c :: d :: x) = [c] :: tokens (d :: x) := by
  conv_lhs => unfold tokens
  rw [hc]
  simp [hd]

theorem tokens_nonws_nonws (c d : Char) (x : List Char) (hc : isPySpace c = false)
    (hd : isPySpace d = false) :
    tokens (c :: d :: x) =
      (match tokens (d :: x) with
       | [] => [[c]]
       | t :: ts => (c :: t) :: ts) := by
  conv_lhs => unfold tokens
  rw [hc]
  simp [hd]

/-! Collapse and tokenization lemmas. -/

theorem allWs_head {c : Char} {u : List Char} (hw : allWs (c :: u) = true) :
    isPySpace c = true := by
  simp only [allWs, List.all_cons, Bool.and_eq_true] at hw
  exact hw.1

theorem allWs_tail {c : Char} {u : List Char} (hw : allWs (c :: u) = true) :
    allWs u = true := by
  simp only [allWs, List.all_cons, Bool.and_eq_true] at hw
  exact hw.2

theorem collapseWs_nonws_front (a x : List Char) (h : ∀ c ∈ a, isPySpace c = false) :
    collapseWs (a ++ x) = a ++ collapseWs x := by
  induction a with
  | nil => rfl
  | cons c a2 ih =>
    rw [List.cons_append, collapseWs_cons_nonws c _ (h c (by simp)), List.cons_append,
      ih (fun d hd => h d (by simp [hd]))]

theorem collapseWs_ws_run (u x : List Char) (hu : u ≠ []) (hw : allWs u = true)
    (hx : startsNonWs x = true ∨ x = []) :
    collapseWs (u ++ x) = ' ' :: collapseWs x := by
  induction u with
  | nil => exact absurd rfl hu
  | cons c u2 ih =>
    have hc : isPySpace c = true := allWs_head hw
    cases u2 with
    | nil =>
      cases x with
      | nil => simpa using collapseWs_ws_nil c hc
      | cons d x2 =>
        have hd : isPySpace d = false := by
          rcases hx with hx | hx
          · simpa [startsNonWs] using hx
          · simp at hx
        simpa using collapseWs_ws_nonws c d x2 hc hd
    | cons e u3 =>
      have he : isPySpace e = true := allWs_head (allWs_tail hw)
      rw [List.cons_append, List.cons_append, collapseWs_ws_ws c e _ hc he,
        ← List.cons_append, ih (by simp) (allWs_tail hw)]

theorem tokens_ws_front (u x : List Char) (hw : allWs u = true) :
    tokens (u ++ x) = tokens x := by
  induction u with
  | nil => rfl
  | cons c u2 ih =>
    rw [List.cons_append, tokens_cons_ws c _ (allWs_head hw), ih (allWs_tail hw)]

theorem tokens_allWs (q : List Char) (hw : allWs q = true) : tokens q = [] := by
  have h := tokens_ws_front q [] hw
  simpa using h

theorem tokens_cons_nonws_false (c : Char) (x : List Char) (hc : isPySpace c = false)
    (hx : startsNonWs x = false) : tokens (c :: x) = [c] :: tokens x := by
  cases x with
  | nil => simpa using tokens_singleton_nonws c hc
  | cons d x2 =>
    have hd : isPySpace d = true := by
      simp only [startsNonWs, Bool.not_eq_false'] at hx
      exact hx
    exact tokens_nonws_ws c d x2 hc hd

theorem tokens_ne_nil_of_startsNonWs (x : List Char) (hx : startsNonWs x = true) :
    tokens x ≠ [] := by
  cases x with
  | nil => simp [startsNonWs] at hx
  | cons c x2 =>
    have hc : isPySpace c = false := by
      simpa [startsNonWs] using hx
    cases x2 with
    | nil => simp [tokens_singleton_nonws c hc]
    | cons d x3 =>
      by_cases hd : isPySpace d = true
      · simp [tokens_nonws_ws c d x3 hc hd]
      · simp only [Bool.not_eq_true] at hd
        rw [tokens_nonws_nonws c d x3 hc hd]
        cases tokens (d :: x3) <;> simp

theorem tokens_cons_nonws_true (c : Char) (x : List Char) (hc : isPySpace c = false)
    (hx : startsNonWs x = true) :
    ∃ t ts, tokens x = t :: ts ∧ tokens (c :: x) = (c :: t) :: ts := by
  cases x with
  | nil => simp [startsNonWs] at hx
  | cons d x2 =>
    have hd : isPySpace d = false := by
      simpa [startsNonWs] using hx
    cases ht : tokens (d :: x2) with
    | nil => exact absurd ht (tokens_ne_nil_of_startsNonWs _ hx)
    | cons t ts =>
      refine ⟨t, ts, rfl, ?_⟩
      rw [tokens_nonws_nonws c d x2 hc hd, ht]

theorem startsNonWs_append_false (x2 q : List Char) (hx : startsNonWs x2 = false)
    (hw : allWs q = true) : startsNonWs (x2 ++ q) = false := by
  cases x2 with
  | nil =>
    cases q with
    | nil => rfl
    | cons w q2 => simp [startsNonWs, allWs_head hw]
  | cons d x3 => simpa [startsNonWs] using hx

theorem tokens_append_ws (x q : List Char) (hw : allWs q = true) :
    tokens (x ++ q) = tokens x := by
  induction x with
  | nil => simpa using tokens_allWs q hw
  | cons c x2 ih =>
    by_cases hc : isPySpace c = true
    · rw [List.cons_append, tokens_cons_ws c _ hc, ih, tokens_cons_ws c x2 hc]
    · simp only [Bool.not_eq_true] at hc
      by_cases hx : startsNonWs x2 = true
      · have hx2 : startsNonWs (x2 ++ q) = true := by
          cases x2 with
          | nil => simp [startsNonWs] at hx
          | cons e x3 => simpa [startsNonWs] using hx
        obtain ⟨t, ts, ht, hct⟩ := tokens_cons_nonws_true c x2 hc hx
        obtain ⟨t2, ts2, ht2, hct2⟩ := tokens_cons_nonws_true c (x2 ++ q) hc hx2
        rw [List.cons_append, hct2, hct]
        rw [ih, ht] at ht2
        rw [List.cons.injEq] at ht2
        rw [ht2.1, ht2.2]
      · simp only [Bool.not_eq_true] at hx
        have hx2 : startsNonWs (x2 ++ q) = false := startsNonWs_append_false x2 q hx hw
        rw [List.cons_append, tokens_cons_nonws_false c (x2 ++ q) hc hx2,
          tokens_cons_nonws_false c x2 hc hx, ih]

/-! Strip decomposition and the normal form of `normalize_name`. -/

theorem head?_append_of_some {a b : List Char} {c : Char} (h : a.head? = some c) :
    (a ++ b).head? = some c := by
  cases a with
  | nil => simp at h
  | cons e a2 => simpa using h

theorem head?_dropWhile_nonws {l : List Char} {c : Char}
    (h : (l.dropWhile isPySpace).head? = some c) : isPySpace c = false := by
  have h2 := List.head?_dropWhile_not isPySpace l
  rw [h] at h2
  simpa using h2

theorem pyStrip_decomp (l : List Char) :
    ∃ p q, allWs p = true ∧ allWs q = true ∧ l = p ++ pyStrip l ++ q := by
  refine ⟨l.takeWhile isPySpace,
    ((l.dropWhile isPySpace).reverse.takeWhile isPySpace).reverse, ?_, ?_, ?_⟩
  · simp only [allWs, List.all_eq_true]
    intro c hc
    exact List.mem_takeWhile_imp hc
  · simp only [allWs, List.all_eq_true]
    intro c hc
    exact List.mem_takeWhile_imp (List.mem_reverse.mp hc)
  · unfold pyStrip
    conv_lhs => rw [← List.takeWhile_append_dropWhile isPySpace l]
    rw [List.append_assoc]
    congr 1
    conv_lhs => rw [← List.reverse_reverse (l.dropWhile isPySpace)]
    conv_lhs =>
      rw [← List.takeWhile_append_dropWhile isPySpace (l.dropWhile isPySpace).reverse]
    rw [List.reverse_append]

theorem noEdgeWs_pyStrip (l : List Char) : noEdgeWs (pyStrip l) := by
  obtain ⟨p, q, hp, hq, hl⟩ := pyStrip_decomp l
  constructor
  · intro c hc
    have hmid : (l.dropWhile isPySpace).head? = some c := by
      have h1 : pyStrip l ++ ((l.dropWhile isPySpace).reverse.takeWhile isPySpace).reverse =
          l.dropWhile isPySpace := by
        unfold pyStrip
        conv_rhs => rw [← List.reverse_reverse (l.dropWhile isPySpace)]
        conv_rhs =>
          rw [← List.takeWhile_append_dropWhile isPySpace (l.dropWhile isPySpace).reverse]
        rw [List.reverse_append]
      rw [← h1]
      exact head?_append_of_some hc
    exact head?_dropWhile_nonws hmid
  · intro c hc
    have h2 : ((l.dropWhile isPySpace).reverse.dropWhile isPySpace).head? = some c := by
      unfold pyStrip at hc
      rwa [List.getLast?_reverse] at hc
    exact head?_dropWhile_nonws h2

theorem joinTokens_cons_cons (c : Char) (t : List Char) (ts : List (List Char)) :
    joinTokens ((c :: t) :: ts) = c :: joinTokens (t :: ts) := by
  cases ts <;> rfl

theorem joinTokens_singleton_cons (x : Char) (ts : List (List Char)) (h : ts ≠ []) :
    joinTokens ([x] :: ts) = x :: ' ' :: joinTokens ts := by
  cases ts with
  | nil => exact absurd rfl h
  | cons u ts2 => rfl

theorem startsNonWs_map_replChar (x : List Char) :
    startsNonWs (x.map replChar) = startsNonWs x := by
  cases x with
  | nil => rfl
  | cons c x2 => simp [startsNonWs, isPySpace_replChar]

theorem allWs_map_replChar (x : List Char) (h : allWs x = true) :
    allWs (x.map replChar) = true := by
  simp only [allWs, List.all_eq_true] at h ⊢
  intro c hc
  obtain ⟨c0, hc0, hcc⟩ := List.mem_map.mp hc
  rw [← hcc, isPySpace_replChar]
  exact h c0 hc0

theorem getLast?_nonws_of_ne_nil {x : List Char} (hx : x ≠ [])
    (h : ∀ c, x.getLast? = some c → isPySpace c = false) :
    ∀ c ∈ x, allWs x = true → False := by
  intro c _ hall
  have hlast : x.getLast? = some (x.getLast hx) := List.getLast?_eq_getLast x hx
  have hmem : x.getLast hx ∈ x := List.getLast_mem hx
  have hws : isPySpace (x.getLast hx) = true := by
    simp only [allWs, List.all_eq_true] at hall
    exact hall _ hmem
  rw [h _ hlast] at hws
  exact absurd hws (by simp)

theorem collapse_canon_core : ∀ (n : Nat) (l : List Char), l.length ≤ n → noEdgeWs l →
    (collapseWs (l.map replChar)).map pyToLower = joinTokens (tokensCanon l) := by
  intro n
  induction n with
  | zero =>
    intro l hl _
    have : l = [] := List.length_eq_zero.mp (Nat.le_zero.mp hl)
    subst this
    rfl
  | succ n ih =>
    intro l hl hedge
    cases l with
    | nil => rfl
    | cons c rest =>
      have hc : isPySpace c = false := hedge.1 c rfl
      have hrc : isPySpace (replChar c) = false := by rw [isPySpace_replChar]; exact hc
      cases rest with
      | nil =>
        rw [List.map_cons, List.map_nil, collapseWs_cons_nonws _ _ hrc]
        unfold tokensCanon
        rw [tokens_singleton_nonws c hc]
        rfl
      | cons d rest2 =>
        by_cases hd : isPySpace d = true
        · -- whitespace run after the head character
          have hu : rest2.takeWhile isPySpace = rest2.takeWhile isPySpace := rfl
          set u := (d :: rest2).takeWhile isPySpace with hu_def
          set rest3 := (d :: rest2).dropWhile isPySpace with hrest3_def
          have hsplit : d :: rest2 = u ++ rest3 :=
            (List.takeWhile_append_dropWhile isPySpace (d :: rest2)).symm
          have huw : allWs u = true := by
            simp only [allWs, List.all_eq_true]
            intro e he
            exact List.mem_takeWhile_imp he
          have hune : u ≠ [] := by
            rw [hu_def]
            simp [List.takeWhile_cons, hd]
          have hlast : ∀ e, rest3.getLast? = some e → isPySpace e = false := by
            intro e he
            apply hedge.2
            have h3 : rest3 ≠ [] := by
              intro h0
              rw [h0] at he
              simp at he
            calc (c :: d :: rest2).getLast? = (d :: rest2).getLast? := by
                  rw [List.getLast?_cons_cons]
              _ = (u ++ rest3).getLast? := by rw [← hsplit]
              _ = rest3.getLast? := List.getLast?_append_of_ne_nil u h3
              _ = some e := he
          have hrest3ne : rest3 ≠ [] := by
            intro h0
            have hall : allWs (d :: rest2) = true := by
              rw [hsplit, h0, List.append_nil]
              exact huw
            have hlast2 : ∀ e, (d :: rest2).getLast? = some e → isPySpace e = false := by
              intro e he
              apply hedge.2
              rw [List.getLast?_cons_cons]
              exact he
            exact getLast?_nonws_of_ne_nil (by simp) hlast2 d (by simp) hall
          have hhead3 : startsNonWs rest3 = true := by
            cases h3 : rest3 with
            | nil => exact absurd h3 hrest3ne
            | cons e rest4 =>
              have : isPySpace e = false := by
                apply head?_dropWhile_nonws (l := d :: rest2)
                rw [← hrest3_def, h3]
                rfl
              simp [startsNonWs, this]
          have hlen : rest3.length ≤ n := by
            have h1 : rest3.length ≤ (d :: rest2).length :=
              (List.dropWhile_sublist _).length_le
            simp only [List.length_cons] at hl h1
            omega
          have hedge3 : noEdgeWs rest3 := by
            constructor
            · intro e he
              apply head?_dropWhile_nonws (l := d :: rest2)
              rw [← hrest3_def]
              exact he
            · exact hlast
          have ih3 := ih rest3 hlen hedge3
          -- left-hand side
          rw [List.map_cons, collapseWs_cons_nonws _ _ hrc]
          rw [show (d :: rest2).map replChar = u.map replChar ++ rest3.map replChar by
            rw [← List.map_append, ← hsplit]]
          rw [collapseWs_ws_run (u.map replChar) (rest3.map replChar)
            (by simpa using hune) (allWs_map_replChar u huw)
            (Or.inl (by rw [startsNonWs_map_replChar]; exact hhead3))]
          rw [List.map_cons, List.map_cons, pyToLower_space, ih3]
          -- right-hand side
          have hsnw : startsNonWs (d :: rest2) = false := by
            simp [startsNonWs, hd]
          unfold tokensCanon
          rw [tokens_cons_nonws_false c _ hc hsnw]
          rw [show tokens (d :: rest2) = tokens rest3 by
            rw [hsplit]
            exact tokens_ws_front u rest3 huw]
          simp only [List.map_cons, List.map_nil]
          rw [joinTokens_singleton_cons (canonChar c) _ (by
            intro h0
            exact tokens_ne_nil_of_startsNonWs rest3 hhead3 (List.map_eq_nil_iff.mp h0))]
          rfl
        · -- two adjacent non-whitespace characters
          simp only [Bool.not_eq_true] at hd
          have hedge2 : noEdgeWs (d :: rest2) := by
            constructor
            · intro e he
              simp only [List.head?_cons, Option.some.injEq] at he
              rw [← he]
              exact hd
            · intro e he
              apply hedge.2
              rw [List.getLast?_cons_cons]
              exact he
          have hlen2 : (d :: rest2).length ≤ n := by
            simp only [List.length_cons] at hl ⊢
            omega
          have ih2 := ih (d :: rest2) hlen2 hedge2
          obtain ⟨t, ts, ht, hct⟩ := tokens_cons_nonws_true c (d :: rest2) hc
            (by simp [startsNonWs, hd])
          rw [List.map_cons, collapseWs_cons_nonws _ _ hrc, List.map_cons, ih2]
          unfold tokensCanon
          rw [hct, ht, List.map_cons, List.map_cons, List.map_cons]
          rw [joinTokens_cons_cons]
          rfl

theorem normalize_name_tokens (s : String) :
    normalize_name s = String.mk (joinTokens (tokensCanon s.toList)) := by
  unfold normalize_name
  congr 1
  rw [collapse_canon_core (pyStrip s.toList).length (pyStrip s.toList) le_rfl
    (noEdgeWs_pyStrip _)]
  obtain ⟨p, q, hp, hq, hl⟩ := pyStrip_decomp s.toList
  have ht : tokens s.toList = tokens (pyStrip s.toList) := by
    conv_lhs => rw [hl]
    rw [List.append_assoc, tokens_ws_front p _ hp, tokens_append_ws _ q hq]
  unfold tokensCanon
  rw [ht]

/-! Token properties, idempotence and similarity. -/

theorem tokens_mem_props : ∀ (l : List Char) t, t ∈ tokens l →
    t ≠ [] ∧ ∀ c ∈ t, isPySpace c = false := by
  intro l
  induction l with
  | nil => intro t ht; simp [tokens] at ht
  | cons c rest ih =>
    intro t ht
    by_cases hc : isPySpace c = true
    · rw [tokens_cons_ws c rest hc] at ht
      exact ih t ht
    · simp only [Bool.not_eq_true] at hc
      by_cases hx : startsNonWs rest = true
      · obtain ⟨t0, ts, ht0, hct⟩ := tokens_cons_nonws_true c rest hc hx
        rw [hct] at ht
        rcases List.mem_cons.mp ht with h1 | h1
        · subst h1
          have hp := ih t0 (by rw [ht0]; simp)
          refine ⟨by simp, ?_⟩
          intro e he
          rcases List.mem_cons.mp he with h2 | h2
          · subst h2; exact hc
          · exact hp.2 e h2
        · exact ih t (by rw [ht0]; simp [h1])
      · simp only [Bool.not_eq_true] at hx
        rw [tokens_cons_nonws_false c rest hc hx] at ht
        rcases List.mem_cons.mp ht with h1 | h1
        · subst h1
          refine ⟨by simp, ?_⟩
          intro e he
          rw [List.mem_singleton.mp he]
          exact hc
        · exact ih t h1

theorem tokens_all_nonws : ∀ (t : List Char), t ≠ [] →
    (∀ c ∈ t, isPySpace c = false) → tokens t = [t] := by
  intro t
  induction t with
  | nil => intro h _; exact absurd rfl h
  | cons c t2 ih =>
    intro _ h
    have hc : isPySpace c = false := h c (by simp)
    cases t2 with
    | nil => exact tokens_singleton_nonws c hc
    | cons d t3 =>
      have hd : isPySpace d = false := h d (by simp)
      rw [tokens_nonws_nonws c d t3 hc hd,
        ih (by simp) (fun e he => h e (by simp [he]))]

theorem tokens_append_space : ∀ (t x : List Char), t ≠ [] →
    (∀ c ∈ t, isPySpace c = false) → tokens (t ++ ' ' :: x) = t :: tokens x := by
  intro t
  induction t with
  | nil => intro x h _; exact absurd rfl h
  | cons c t2 ih =>
    intro x _ h
    have hc : isPySpace c = false := h c (by simp)
    cases t2 with
    | nil =>
      rw [List.singleton_append, tokens_nonws_ws c ' ' x hc (by decide),
        tokens_cons_ws ' ' x (by decide)]
    | cons d t3 =>
      have hd : isPySpace d = false := h d (by simp)
      have ih2 := ih x (by simp) (fun e he => h e (by simp [he]))
      show tokens (c :: d :: (t3 ++ ' ' :: x)) = (c :: d :: t3) :: tokens x
      rw [tokens_nonws_nonws c d (t3 ++ ' ' :: x) hc hd,
        show tokens (d :: (t3 ++ ' ' :: x)) = (d :: t3) :: tokens x from ih2]

theorem tokens_joinTokens : ∀ (ts : List (List Char)),
    (∀ t ∈ ts, t ≠ [] ∧ ∀ c ∈ t, isPySpace c = false) →
    tokens (joinTokens ts) = ts := by
  intro ts
  induction ts with
  | nil => intro _; rfl
  | cons t ts2 ih =>
    intro h
    have hp := h t (by simp)
    cases ts2 with
    | nil =>
      show tokens t = [t]
      exact tokens_all_nonws t hp.1 hp.2
    | cons u ts3 =>
      show tokens (t ++ ' ' :: joinTokens (u :: ts3)) = t :: u :: ts3
      rw [tokens_append_space t _ hp.1 hp.2, ih (fun v hv => h v (by simp [hv]))]

theorem map_canonChar_idem (t : List Char) :
    (t.map canonChar).map canonChar = t.map canonChar := by
  induction t with
  | nil => rfl
  | cons c t2 ih => simp [canonChar_idem, ih]

theorem tokensCanon_props (l : List Char) :
    ∀ t ∈ tokensCanon l, t ≠ [] ∧ ∀ c ∈ t, isPySpace c = false := by
  intro t ht
  obtain ⟨t0, ht0, htt⟩ := List.mem_map.mp ht
  have hp := tokens_mem_props l t0 ht0
  subst htt
  constructor
  · intro h0
    exact hp.1 (List.map_eq_nil_iff.mp h0)
  · intro c hc
    obtain ⟨c0, hc0, hcc⟩ := List.mem_map.mp hc
    rw [← hcc, isPySpace_canonChar]
    exact hp.2 c0 hc0

theorem tokensCanon_joinTokens_tokensCanon (l : List Char) :
    tokensCanon (joinTokens (tokensCanon l)) = tokensCanon l := by
  unfold tokensCanon
  rw [show List.map (List.map canonChar) (tokens l) = tokensCanon l from rfl]
  rw [tokens_joinTokens (tokensCanon l) (tokensCanon_props l)]
  unfold tokensCanon
  rw [List.map_map]
  apply List.map_congr_left
  intro t _
  exact map_canonChar_idem t

theorem similarCore_tokensCanon {s t : List Char} (h : SimilarCore s t) :
    tokensCanon s = tokensCanon t ∧ startsNonWs s = startsNonWs t := by
  induction h with
  | nil => exact ⟨rfl, rfl⟩
  | @sym c d s2 t2 hc hd hcanon h2 ih =>
    have ih1 := ih.1
    unfold tokensCanon at ih1
    constructor
    · by_cases hs : startsNonWs s2 = true
      · have hts : startsNonWs t2 = true := by rw [← ih.2]; exact hs
        obtain ⟨a, as2, ha, hca⟩ := tokens_cons_nonws_true c s2 hc hs
        obtain ⟨b, bs2, hb, hcb⟩ := tokens_cons_nonws_true d t2 hd hts
        rw [ha, hb] at ih1
        simp only [List.map_cons, List.cons.injEq] at ih1
        unfold tokensCanon
        rw [hca, hcb]
        simp only [List.map_cons, List.cons.injEq]
        exact ⟨⟨hcanon, ih1.1⟩, ih1.2⟩
      · simp only [Bool.not_eq_true] at hs
        have hts : startsNonWs t2 = false := by rw [← ih.2]; exact hs
        unfold tokensCanon
        rw [tokens_cons_nonws_false c s2 hc hs, tokens_cons_nonws_false d t2 hd hts]
        simp only [List.map_cons, List.map_nil, List.cons.injEq]
        exact ⟨⟨hcanon, trivial⟩, ih1⟩
    · simp [startsNonWs, hc, hd]
  | @run u v s2 t2 hu hv hwu hwv h2 ih =>
    constructor
    · unfold tokensCanon
      rw [tokens_ws_front u s2 hwu, tokens_ws_front v t2 hwv]
      exact ih.1
    · cases u with
      | nil => exact absurd rfl hu
      | cons w u2 =>
        cases v with
        | nil => exact absurd rfl hv
        | cons w2 v2 =>
          simp [startsNonWs, allWs_head hwu, allWs_head hwv]

/-- C8: `normalize_name` is idempotent, and any two strings that differ only
in letter case, apostrophe style (typographic vs plain), or the composition of
leading/trailing/internal whitespace runs normalize to the same string. -/
theorem normalize_name_spec :
    (∀ N : String, normalize_name (normalize_name N) = normalize_name N) ∧
    (∀ s t : String, Similar s t → normalize_name s = normalize_name t) := by
  constructor
  · intro N
    rw [normalize_name_tokens N, normalize_name_tokens (String.mk _)]
    show String.mk (joinTokens (tokensCanon (joinTokens (tokensCanon N.toList)))) = _
    rw [tokensCanon_joinTokens_tokensCanon]
  · intro s t h
    obtain ⟨p, q, p2, q2, s2, t2, hp, hq, hp2, hq2, hs, ht, hcore⟩ := h
    rw [normalize_name_tokens s, normalize_name_tokens t]
    have h1 : tokens s.toList = tokens s2 := by
      conv_lhs => rw [hs]
      rw [List.append_assoc, tokens_ws_front p _ hp, tokens_append_ws _ q hq]
    have h2 : tokens t.toList = tokens t2 := by
      conv_lhs => rw [ht]
      rw [List.append_assoc, tokens_ws_front p2 _ hp2, tokens_append_ws _ q2 hq2]
    unfold tokensCanon
    rw [h1, h2]
    have h3 := (similarCore_tokensCanon hcore).1
    unfold tokensCanon at h3
    rw [h3]

/-- Witness for C8: idempotence at a concrete name, and a concrete pair
differing only in case, apostrophe style and whitespace runs ("A’b  c" vs
" a'B c") normalizing identically. -/
theorem normalize_name_spec_witness :
    normalize_name (normalize_name "  FOO  bar ") = normalize_name "  FOO  bar " ∧
    Similar (String.mk ['A', typoApostrophe, 'b', ' ', ' ', 'c'])
      (String.mk [' ', 'a', plainApostrophe, 'B', ' ', 'c']) ∧
    normalize_name (String.mk ['A', typoApostrophe, 'b', ' ', ' ', 'c']) =
      normalize_name (String.mk [' ', 'a', plainApostrophe, 'B', ' ', 'c']) := by
  have hsim : Similar (String.mk ['A', typoApostrophe, 'b', ' ', ' ', 'c'])
      (String.mk [' ', 'a', plainApostrophe, 'B', ' ', 'c']) := by
    refine ⟨[], [], [' '], [], ['A', typoApostrophe, 'b', ' ', ' ', 'c'],
      ['a', plainApostrophe, 'B', ' ', 'c'], by decide, by decide, by decide, by decide,
      by simp, by simp, ?_⟩
    apply SimilarCore.sym (by decide) (by decide) (by decide)
    apply SimilarCore.sym (by decide) (by decide) (by decide)
    apply SimilarCore.sym (by decide) (by decide) (by decide)
    show SimilarCore ([' ', ' '] ++ ['c']) ([' '] ++ ['c'])
    apply SimilarCore.run (by decide) (by decide) (by decide) (by decide)
    exact SimilarCore.sym (by decide) (by decide) (by decide) SimilarCore.nil
  exact ⟨normalize_name_spec.1 "  FOO  bar ",
    hsim,
    normalize_name_spec.2 _ _ hsim⟩

/-! Batch loop and catalog update characterizations. -/

theorem runBatches_failed (env : Env) (server : String) :
    ∀ (bs : List (List Int)) (i : Nat) (acc : BatchAcc),
    (runBatches env server bs i acc).failed =
      acc.failed + (List.range bs.length).countP (fun j => (env.batchOutcome (i + j)).isNone) := by
  intro bs
  induction bs with
  | nil => intro i acc; simp [runBatches]
  | cons b rest ih =>
    intro i acc
    have hstep : (List.range (b :: rest).length).countP
        (fun j => (env.batchOutcome (i + j)).isNone) =
        (if (env.batchOutcome i).isNone then 1 else 0) +
          (List.range rest.length).countP (fun j => (env.batchOutcome (i + 1 + j)).isNone) := by
      rw [List.length_cons, List.range_succ_eq_map, List.countP_cons, List.countP_map]
      have hc : ∀ j ∈ List.range rest.length,
          (((fun j => (env.batchOutcome (i + j)).isNone) ∘ Nat.succ) j = true ↔
            (fun j => (env.batchOutcome (i + 1 + j)).isNone) j = true) := by
        intro j _
        have h3 : i + Nat.succ j = i + 1 + j := by omega
        simp [Function.comp, h3]
      rw [List.countP_congr hc]
      simp only [Nat.add_zero]
      omega
    cases h : env.batchOutcome i with
    | none =>
      simp only [runBatches, h]
      rw [ih, hstep]
      simp [h]
      omega
    | some vals =>
      simp only [runBatches, h]
      rw [ih, hstep]
      simp [h]

theorem runBatches_processed (env : Env) (server : String) :
    ∀ (bs : List (List Int)) (i : Nat) (acc : BatchAcc),
    (runBatches env server bs i acc).processedIds =
      acc.processedIds ++ processedFrom env i bs := by
  intro bs
  induction bs with
  | nil => intro i acc; simp [runBatches, processedFrom]
  | cons b rest ih =>
    intro i acc
    cases h : env.batchOutcome i with
    | none =>
      simp only [runBatches, h, processedFrom]
      rw [ih]
      simp
    | some vals =>
      simp only [runBatches, h, processedFrom]
      rw [ih]
      simp

theorem runBatches_effs_mem (env : Env) (server : String) :
    ∀ (bs : List (List Int)) (i : Nat) (acc : BatchAcc) (e : Eff),
    e ∈ (runBatches env server bs i acc).effs →
    e ∈ acc.effs ∨ ∃ b2, e = Eff.netMarketBatch server b2 := by
  intro bs
  induction bs with
  | nil => intro i acc e he; exact Or.inl he
  | cons b rest ih =>
    intro i acc e he
    cases h : env.batchOutcome i with
    | none =>
      simp only [runBatches, h] at he
      rcases ih (i + 1) _ e he with h1 | h1
      · rcases List.mem_append.mp h1 with h2 | h2
        · exact Or.inl h2
        · exact Or.inr ⟨b, List.mem_singleton.mp h2⟩
      · exact Or.inr h1
    | some vals =>
      simp only [runBatches, h] at he
      rcases ih (i + 1) _ e he with h1 | h1
      · rcases List.mem_append.mp h1 with h2 | h2
        · exact Or.inl h2
        · exact Or.inr ⟨b, List.mem_singleton.mp h2⟩
      · exact Or.inr h1

theorem update_items_fst (items : List Item) (nTi : List (String × Int))
    (mv : Option (List (Int × Int))) (pids : Option (List Int)) :
    (update_items_with_prices items nTi mv pids).1 = items.map (updateOne nTi mv pids) := by
  induction items with
  | nil => rfl
  | cons it rest ih =>
    simp only [update_items_with_prices, List.map_cons]
    rw [← ih]

theorem apply_item_ids_fst (items : List Item) (nTi : List (String × Int)) :
    (apply_item_ids items nTi).1 = items.map (applyOne nTi) := by
  induction items with
  | nil => rfl
  | cons it rest ih =>
    simp only [apply_item_ids, List.map_cons, applyOne]
    cases h : resolvedId nTi it <;> simp [h, ← ih]

theorem applyOne_gold (nTi : List (String × Int)) (it : Item) :
    (applyOne nTi it).gold = it.gold := by
  unfold applyOne
  cases resolvedId nTi it <;> rfl

theorem resolvedId_applyOne (nTi : List (String × Int)) (it : Item) :
    resolvedId nTi (applyOne nTi it) = resolvedId nTi it := by
  unfold applyOne
  cases h : resolvedId nTi it with
  | some i => rfl
  | none => exact h

theorem updateOne_gold_mem (nTi : List (String × Int)) (mv : List (Int × Int))
    (pids : List Int) (it : Item) (i : Int) (h : resolvedId nTi it = some i)
    (hin : i ∈ pids) :
    (updateOne nTi (some mv) (some pids) it).gold = priceRule (dlookup mv i) := by
  unfold updateOne
  rw [h]
  simp [hin]

theorem updateOne_gold_not_mem (nTi : List (String × Int)) (mv : List (Int × Int))
    (pids : List Int) (it : Item) (i : Int) (h : resolvedId nTi it = some i)
    (hnin : i ∉ pids) :
    (updateOne nTi (some mv) (some pids) it).gold = it.gold := by
  unfold updateOne
  rw [h]
  simp only [hnin, if_false, ite_false, if_neg, not_false_iff]
  split
  · rfl
  · split <;> rfl

/-! Non-skip run branch equations. -/

theorem nonSkipRun_false_empty (st : FsState) (env : Env) (server : String)
    (m0 : List (String × Int))
    (hemp : (batchRun st env server m0).processedIds.isEmpty = true) :
    nonSkipRun st env server m0 false =
      (summaryResult server 0 0 0 (batchRun st env server m0).total
          (batchRun st env server m0).failed,
        { st with metaFile := some (some (metaAfterRun st env server)) },
        (batchRun st env server m0).effs ++ [Eff.writeMeta]) := by
  simp only [batchRun, pipelineItemIds] at hemp
  simp [nonSkipRun, batchRun, pipelineItemIds, hemp]

theorem nonSkipRun_false_nonempty (st : FsState) (env : Env) (server : String)
    (m0 : List (String × Int))
    (hemp : (batchRun st env server m0).processedIds.isEmpty = false) :
    nonSkipRun st env server m0 false =
      (summaryResult server
          ((update_items_with_prices (apply_item_ids st.creatureItems (withAliases m0)).1
              (withAliases m0) (some (batchRun st env server m0).marketValues)
              (some (batchRun st env server m0).processedIds)).2.1 +
            (update_items_with_prices (apply_item_ids st.deliveryItems (withAliases m0)).1
              (withAliases m0) (some (batchRun st env server m0).marketValues)
              (some (batchRun st env server m0).processedIds)).2.1)
          ((update_items_with_prices (apply_item_ids st.creatureItems (withAliases m0)).1
              (withAliases m0) (some (batchRun st env server m0).marketValues)
              (some (batchRun st env server m0).processedIds)).2.2.1 +
            (update_items_with_prices (apply_item_ids st.deliveryItems (withAliases m0)).1
              (withAliases m0) (some (batchRun st env server m0).marketValues)
              (some (batchRun st env server m0).processedIds)).2.2.1)
          ((update_items_with_prices (apply_item_ids st.creatureItems (withAliases m0)).1
              (withAliases m0) (some (batchRun st env server m0).marketValues)
              (some (batchRun st env server m0).processedIds)).2.2.2 +
            (update_items_with_prices (apply_item_ids st.deliveryItems (withAliases m0)).1
              (withAliases m0) (some (batchRun st env server m0).marketValues)
              (some (batchRun st env server m0).processedIds)).2.2.2)
          (batchRun st env server m0).total (batchRun st env server m0).failed,
        { st with
          creatureItems := (update_items_with_prices
              (apply_item_ids st.creatureItems (withAliases m0)).1
              (withAliases m0) (some (batchRun st env server m0).marketValues)
              (some (batchRun st env server m0).processedIds)).1,
          deliveryItems := (update_items_with_prices
              (apply_item_ids st.deliveryItems (withAliases m0)).1
              (withAliases m0) (some (batchRun st env server m0).marketValues)
              (some (batchRun st env server m0).processedIds)).1,
          metaFile := some (some (metaAfterRun st env server)) },
        (batchRun st env server m0).effs ++ [Eff.writeCreature, Eff.writeDelivery] ++
          [Eff.writeMeta]) := by
  simp only [batchRun, pipelineItemIds] at hemp
  simp [nonSkipRun, batchRun, pipelineItemIds, hemp]

theorem refreshImpl_cacheHit (st : FsState) (env : Env) (server : String)
    (m0 : List (String × Int)) (hskip : skipCond st env server = false)
    (hcache : st.idsCache = some { fresh := true, items := some m0 }) :
    refreshImpl st env server = nonSkipRun st env server m0 false := by
  simp [refreshImpl, hskip, hcache, cachedMapping]

theorem dlookup_summaryResult_failed (server : String) (u w m bt fb : Nat) :
    dlookup (summaryResult server u w m bt fb) "failed_batches" = some (.rint fb) := by
  rfl

/-- C4: in a run whose name-to-id mapping comes from the fresh cache, items
whose resolved id is outside the processed-id set (it belonged only to failed
batches) keep their prior gold unchanged, items whose id was processed get gold
from the fetched price map (absent or -1 normalized to 0), the result's
failed_batches equals the number of batch indices whose fetch failed, and the
catalog files are written only when at least one batch was processed. -/
theorem partial_failure_isolation (st : FsState) (env : Env) (server : String)
    (m0 : List (String × Int))
    (hskip : skipCond st env server = false)
    (hcache : st.idsCache = some { fresh := true, items := some m0 }) :
    (dlookup (refreshImpl st env server).1 "failed_batches" =
        some (.rint ((batchRun st env server m0).failed)) ∧
      (batchRun st env server m0).failed =
        countFailedBatches env (chunks100 (pipelineItemIds st (withAliases m0))).length) ∧
    (∀ i it n, st.creatureItems.get? i = some it →
      resolvedId (withAliases m0) it = some n →
      n ∉ (batchRun st env server m0).processedIds →
      ((refreshImpl st env server).2.1.creatureItems.get? i).map Item.gold = some it.gold) ∧
    (∀ i it n, st.deliveryItems.get? i = some it →
      resolvedId (withAliases m0) it = some n →
      n ∉ (batchRun st env server m0).processedIds →
      ((refreshImpl st env server).2.1.deliveryItems.get? i).map Item.gold = some it.gold) ∧
    (∀ i it n, st.creatureItems.get? i = some it →
      resolvedId (withAliases m0) it = some n →
      n ∈ (batchRun st env server m0).processedIds →
      ((refreshImpl st env server).2.1.creatureItems.get? i).map Item.gold =
        some (priceRule (dlookup (batchRun st env server m0).marketValues n))) ∧
    (∀ i it n, st.deliveryItems.get? i = some it →
      resolvedId (withAliases m0) it = some n →
      n ∈ (batchRun st env server m0).processedIds →
      ((refreshImpl st env server).2.1.deliveryItems.get? i).map Item.gold =
        some (priceRule (dlookup (batchRun st env server m0).marketValues n))) ∧
    ((Eff.writeCreature ∈ (refreshImpl st env server).2.2 ∨
      Eff.writeDelivery ∈ (refreshImpl st env server).2.2) →
      (batchRun st env server m0).processedIds ≠ []) := by
  have hfail : (batchRun st env server m0).failed =
      countFailedBatches env (chunks100 (pipelineItemIds st (withAliases m0))).length := by
    have h1 := runBatches_failed env server (chunks100 (pipelineItemIds st (withAliases m0))) 0
      { marketValues := [], processedIds := [], failed := 0, total := 0,
        effs := [.netWorldData server] }
    unfold countFailedBatches
    rw [← List.countP_eq_length_filter]
    rw [show (batchRun st env server m0).failed =
      (runBatches env server (chunks100 (pipelineItemIds st (withAliases m0))) 0
        { marketValues := [], processedIds := [], failed := 0, total := 0,
          effs := [.netWorldData server] }).failed from rfl, h1]
    simp only [Nat.zero_add]
  rw [refreshImpl_cacheHit st env server m0 hskip hcache]
  by_cases hemp : (batchRun st env server m0).processedIds.isEmpty = true
  · have hnil : (batchRun st env server m0).processedIds = [] := List.isEmpty_iff.mp hemp
    rw [nonSkipRun_false_empty st env server m0 hemp]
    refine ⟨⟨dlookup_summaryResult_failed server 0 0 0 _ _, hfail⟩, ?_, ?_, ?_, ?_, ?_⟩
    · intro i it n hget _ _
      simp only
      rw [hget]
      rfl
    · intro i it n hget _ _
      simp only
      rw [hget]
      rfl
    · intro i it n _ _ hmem
      rw [hnil] at hmem
      exact absurd hmem (List.not_mem_nil n)
    · intro i it n _ _ hmem
      rw [hnil] at hmem
      exact absurd hmem (List.not_mem_nil n)
    · intro h
      exfalso
      have hbad : Eff.writeCreature ∈ (batchRun st env server m0).effs ++ [Eff.writeMeta] ∨
          Eff.writeDelivery ∈ (batchRun st env server m0).effs ++ [Eff.writeMeta] := h
      rcases hbad with hb | hb <;>
      · rcases List.mem_append.mp hb with h2 | h2
        · rcases runBatches_effs_mem env server _ 0 _ _ h2 with h3 | h3
          · simp at h3
          · obtain ⟨b2, hb2⟩ := h3
            simp at hb2
        · simp at h2
  · have hempf : (batchRun st env server m0).processedIds.isEmpty = false := by
      simpa using hemp
    have hnnil : (batchRun st env server m0).processedIds ≠ [] := by
      intro h0
      rw [h0] at hempf
      simp at hempf
    rw [nonSkipRun_false_nonempty st env server m0 hempf]
    refine ⟨⟨dlookup_summaryResult_failed server _ _ _ _ _, hfail⟩, ?_, ?_, ?_, ?_,
      fun _ => hnnil⟩
    · intro i it n hget hres hnin
      simp only
      rw [update_items_fst, apply_item_ids_fst, List.map_map, List.get?_map, hget]
      simp only [Option.map_some, Function.comp, Option.map]
      rw [updateOne_gold_not_mem _ _ _ _ n (by rw [resolvedId_applyOne]; exact hres) hnin,
        applyOne_gold]
    · intro i it n hget hres hnin
      simp only
      rw [update_items_fst, apply_item_ids_fst, List.map_map, List.get?_map, hget]
      simp only [Option.map_some, Function.comp, Option.map]
      rw [updateOne_gold_not_mem _ _ _ _ n (by rw [resolvedId_applyOne]; exact hres) hnin,
        applyOne_gold]
    · intro i it n hget hres hmem
      simp only
      rw [update_items_fst, apply_item_ids_fst, List.map_map, List.get?_map, hget]
      simp only [Option.map_some, Function.comp, Option.map]
      rw [updateOne_gold_mem _ _ _ _ n (by rw [resolvedId_applyOne]; exact hres) hmem]
    · intro i it n hget hres hmem
      simp only
      rw [update_items_fst, apply_item_ids_fst, List.map_map, List.get?_map, hget]
      simp only [Option.map_some, Function.comp, Option.map]
      rw [updateOne_gold_mem _ _ _ _ n (by rw [resolvedId_applyOne]; exact hres) hmem]

set_option maxRecDepth 8000 in
/-- Witness for C4: on the two-batch sample with one failing batch, the
hypotheses hold and the failed-batch count is the number of failing batch
indices (here 1). -/
theorem partial_failure_isolation_witness :
    skipCond sampleBatchSt sampleBatchEnv "Antica" = false ∧
    sampleBatchSt.idsCache = some { fresh := true, items := some [] } ∧
    (batchRun sampleBatchSt sampleBatchEnv "Antica" []).failed = 1 ∧
    (batchRun sampleBatchSt sampleBatchEnv "Antica" []).failed =
      countFailedBatches sampleBatchEnv
        (chunks100 (pipelineItemIds sampleBatchSt (withAliases []))).length :=
  ⟨by rfl, by rfl, by rfl,
    (partial_failure_isolation sampleBatchSt sampleBatchEnv "Antica" []
      (by rfl) (by rfl)).1.2⟩

/-! Single-flight machine invariant. -/

theorem busy_not_finished {pc : PC} (h : busyPC pc = true) : finishedRunPC pc = false := by
  cases pc with
  | running => rfl
  | finishing o => rfl
  | start => simp [busyPC] at h
  | waiting => simp [busyPC] at h
  | done o j => simp [busyPC] at h

theorem finishedRun_exists {pc : PC} (h : finishedRunPC pc = true) :
    ∃ o, pc = .done o false := by
  cases pc with
  | done o j =>
    cases j with
    | false => exact ⟨o, rfl⟩
    | true => simp [finishedRunPC] at h
  | start => simp [finishedRunPC] at h
  | waiting => simp [finishedRunPC] at h
  | running => simp [finishedRunPC] at h
  | finishing o => simp [finishedRunPC] at h

theorem minv_stepA (server : String) (implOut : Bool → Except String RDict) (dur : Bool → ℚ)
    (c : MConfig) (h : MInv server implOut dur c) :
    MInv server implOut dur (mstep server implOut dur c false) := by
  cases hA : c.pcA with
  | start =>
    by_cases hip : c.flight.inProgress = true
    · have hbusyB : busyPC c.pcB = true := by
        have h6 := h.ip
        rw [hA, hip] at h6
        simpa [busyPC] using h6.symm
      have hstep : mstep server implOut dur c false =
          { flight := { c.flight with waiters := c.flight.waiters + 1 },
            pcA := .waiting, pcB := c.pcB, trace := c.trace } := by
        simp [mstep, threadStep, hA, hip]
      rw [hstep]
      exact {
        outAfin := fun o h0 => nomatch h0
        outAdone := fun o h0 => nomatch h0
        outBfin := h.outBfin
        outBdone := h.outBdone
        mutex := fun h1 => by simp [busyPC] at h1
        ip := by
          show c.flight.inProgress = (busyPC PC.waiting || busyPC c.pcB)
          rw [hip, hbusyB]
          rfl
        traceA := by rw [h.traceA, hA]; rfl
        traceB := h.traceB
        lrA := fun h1 _ => by simp [finishedRunPC] at h1
        lrB := fun h1 _ => h.lrB h1 (by rw [hA]; rfl)
        waitA := fun _ => by simp [engagedPC, hbusyB]
        waitB := fun hw => by rw [hw] at hbusyB; simp [busyPC] at hbusyB
        joinA := fun o h0 => nomatch h0
        joinB := fun o h0 => by
          have h2 := (h.joinB o h0).2
          rw [hA] at h2
          simp [finishedRunPC] at h2 }
    · have hipf : c.flight.inProgress = false := by simpa using hip
      have hbusy : busyPC c.pcA = false ∧ busyPC c.pcB = false := by
        have h6 := h.ip
        rw [hipf] at h6
        exact Bool.or_eq_false_iff.mp h6.symm
      have hstep : mstep server implOut dur c false =
          { flight := { c.flight with inProgress := true },
            pcA := .running, pcB := c.pcB, trace := c.trace } := by
        simp [mstep, threadStep, hA, hipf]
      rw [hstep]
      exact {
        outAfin := fun o h0 => nomatch h0
        outAdone := fun o h0 => nomatch h0
        outBfin := h.outBfin
        outBdone := h.outBdone
        mutex := fun h1 => by
          have h2 : busyPC c.pcB = true := h1.2
          rw [hbusy.2] at h2
          simp at h2
        ip := by simp [busyPC, hbusy.2]
        traceA := by rw [h.traceA, hA]; rfl
        traceB := h.traceB
        lrA := fun h1 _ => by simp [finishedRunPC] at h1
        lrB := fun h1 _ => h.lrB h1 (by rw [hA]; rfl)
        waitA := fun h0 => nomatch h0
        waitB := fun _ => by simp [engagedPC, busyPC]
        joinA := fun o h0 => nomatch h0
        joinB := fun o h0 => by
          have h2 := (h.joinB o h0).2
          rw [hA] at h2
          simp [finishedRunPC] at h2 }
  | waiting =>
    by_cases hip : c.flight.inProgress = true
    · have hstep : mstep server implOut dur c false = c := by
        simp [mstep, threadStep, hA, hip]
        rw [← hA]
      rw [hstep]
      exact h
    · have hipf : c.flight.inProgress = false := by simpa using hip
      have hbusy : busyPC c.pcA = false ∧ busyPC c.pcB = false := by
        have h6 := h.ip
        rw [hipf] at h6
        exact Bool.or_eq_false_iff.mp h6.symm
      have hengB : engagedPC c.pcB = true := h.waitA hA
      have hfinB : finishedRunPC c.pcB = true := by
        simpa [engagedPC, hbusy.2] using hengB
      obtain ⟨oB, hB⟩ := finishedRun_exists hfinB
      have hlr : c.flight.lastResult =
          some (mkLastResult server (dur true) (implOut true)) :=
        h.lrB hfinB (by rw [hA]; rfl)
      have hstep : mstep server implOut dur c false =
          { flight := { c.flight with waiters := c.flight.waiters - 1 },
            pcA := .done (.ok (joinedResult server c.flight.lastResult)) true,
            pcB := c.pcB, trace := c.trace } := by
        simp [mstep, threadStep, hA, hipf]
      rw [hstep]
      exact {
        outAfin := fun o h0 => nomatch h0
        outAdone := fun o h0 => by
          have h1 : PC.done (.ok (joinedResult server c.flight.lastResult)) true =
              .done o false := h0
          injection h1 with h2 h3
          simp at h3
        outBfin := h.outBfin
        outBdone := h.outBdone
        mutex := fun h1 => by simp [busyPC] at h1
        ip := by
          show c.flight.inProgress =
            (busyPC (PC.done (.ok (joinedResult server c.flight.lastResult)) true) ||
              busyPC c.pcB)
          rw [hipf, hbusy.2]
          rfl
        traceA := by rw [h.traceA, hA]; rfl
        traceB := h.traceB
        lrA := fun h1 _ => by simp [finishedRunPC] at h1
        lrB := fun h1 _ => h.lrB h1 (by rw [hA]; rfl)
        waitA := fun h0 => nomatch h0
        waitB := fun hw => by rw [hw] at hB; nomatch hB
        joinA := fun o h0 => by
          have h1 : PC.done (.ok (joinedResult server c.flight.lastResult)) true =
              .done o true := h0
          injection h1 with h2 h3
          refine ⟨?_, hfinB⟩
          rw [← h2, hlr]
        joinB := fun o h0 => by
          have h2 := (h.joinB o h0).2
          rw [hA] at h2
          simp [finishedRunPC] at h2 }
  | running =>
    have hbusyA : busyPC c.pcA = true := by rw [hA]; rfl
    have hbusyB : busyPC c.pcB = false := by
      by_contra hb
      exact h.mutex ⟨hbusyA, by simpa using hb⟩
    have hip : c.flight.inProgress = true := by
      rw [h.ip, hbusyA]
      rfl
    have hstep : mstep server implOut dur c false =
        { flight := c.flight, pcA := .finishing (implOut false), pcB := c.pcB,
          trace := c.trace ++ [false] } := by
      simp [mstep, threadStep, hA]
    rw [hstep]
    exact {
      outAfin := fun o h0 => by
        have h1 : PC.finishing (implOut false) = .finishing o := h0
        injection h1 with h2
        exact h2.symm
      outAdone := fun o h0 => nomatch h0
      outBfin := h.outBfin
      outBdone := h.outBdone
      mutex := fun h1 => by
        have h2 : busyPC c.pcB = true := h1.2
        rw [hbusyB] at h2
        simp at h2
      ip := by simp [busyPC, hbusyB, hip]
      traceA := by
        simp only [List.count_append]
        rw [h.traceA, hA]
        rfl
      traceB := by
        simp only [List.count_append]
        rw [h.traceB]
        rfl
      lrA := fun h1 _ => by simp [finishedRunPC] at h1
      lrB := fun h1 _ => h.lrB h1 (by rw [hA]; rfl)
      waitA := fun h0 => nomatch h0
      waitB := fun _ => by simp [engagedPC, busyPC]
      joinA := fun o h0 => nomatch h0
      joinB := fun o h0 => by
        have h2 := (h.joinB o h0).2
        rw [hA] at h2
        simp [finishedRunPC] at h2 }
  | finishing oA =>
    have hoA : oA = implOut false := h.outAfin oA hA
    have hbusyA : busyPC c.pcA = true := by rw [hA]; rfl
    have hbusyB : busyPC c.pcB = false := by
      by_contra hb
      exact h.mutex ⟨hbusyA, by simpa using hb⟩
    have hstep : mstep server implOut dur c false =
        { flight := { c.flight with
            inProgress := false,
            lastResult := some (mkLastResult server (dur false) oA) },
          pcA := .done oA false, pcB := c.pcB, trace := c.trace } := by
      simp [mstep, threadStep, hA]
    rw [hstep]
    exact {
      outAfin := fun o h0 => nomatch h0
      outAdone := fun o h0 => by
        have h1 : PC.done oA false = .done o false := h0
        injection h1 with h2 h3
        rw [← h2, hoA]
      outBfin := h.outBfin
      outBdone := h.outBdone
      mutex := fun h1 => by simp [busyPC] at h1
      ip := by
        show false = (busyPC (PC.done oA false) || busyPC c.pcB)
        rw [hbusyB]
        rfl
      traceA := by rw [h.traceA, hA]; rfl
      traceB := h.traceB
      lrA := fun _ _ => by rw [hoA]
      lrB := fun h1 h2 => by simp [finishedRunPC] at h2
      waitA := fun h0 => nomatch h0
      waitB := fun hw => by simp [engagedPC, finishedRunPC]
      joinA := fun o h0 => by
        have h1 : PC.done oA false = .done o true := h0
        injection h1 with h2 h3
        simp at h3
      joinB := fun o h0 => by
        have h2 := (h.joinB o h0).2
        rw [hA] at h2
        simp [finishedRunPC] at h2 }
  | done oA j =>
    have hstep : mstep server implOut dur c false = c := by
      simp [mstep, threadStep, hA]
      rw [← hA]
    rw [hstep]
    exact h

theorem minv_stepB (server : String) (implOut : Bool → Except String RDict) (dur : Bool → ℚ)
    (c : MConfig) (h : MInv server implOut dur c) :
    MInv server implOut dur (mstep server implOut dur c true) := by
  cases hA : c.pcB with
  | start =>
    by_cases hip : c.flight.inProgress = true
    · have hbusyB : busyPC c.pcA = true := by
        have h6 := h.ip
        rw [hA, hip] at h6
        simpa [busyPC] using h6.symm
      have hstep : mstep server implOut dur c true =
          { flight := { c.flight with waiters := c.flight.waiters + 1 },
            pcB := .waiting, pcA := c.pcA, trace := c.trace } := by
        simp [mstep, threadStep, hA, hip]
      rw [hstep]
      exact {
        outBfin := fun o h0 => nomatch h0
        outBdone := fun o h0 => nomatch h0
        outAfin := h.outAfin
        outAdone := h.outAdone
        mutex := fun h1 => by simp [busyPC] at h1
        ip := by
          show c.flight.inProgress = (busyPC c.pcA || busyPC PC.waiting)
          rw [hip, hbusyB]
          rfl
        traceB := by rw [h.traceB, hA]; rfl
        traceA := h.traceA
        lrB := fun h1 _ => by simp [finishedRunPC] at h1
        lrA := fun h1 _ => h.lrA h1 (by rw [hA]; rfl)
        waitB := fun _ => by simp [engagedPC, hbusyB]
        waitA := fun hw => by rw [hw] at hbusyB; simp [busyPC] at hbusyB
        joinB := fun o h0 => nomatch h0
        joinA := fun o h0 => by
          have h2 := (h.joinA o h0).2
          rw [hA] at h2
          simp [finishedRunPC] at h2 }
    · have hipf : c.flight.inProgress = false := by simpa using hip
      have hbusy : busyPC c.pcA = false ∧ busyPC c.pcB = false := by
        have h6 := h.ip
        rw [hipf] at h6
        exact Bool.or_eq_false_iff.mp h6.symm
      have hstep : mstep server implOut dur c true =
          { flight := { c.flight with inProgress := true },
            pcB := .running, pcA := c.pcA, trace := c.trace } := by
        simp [mstep, threadStep, hA, hipf]
      rw [hstep]
      exact {
        outBfin := fun o h0 => nomatch h0
        outBdone := fun o h0 => nomatch h0
        outAfin := h.outAfin
        outAdone := h.outAdone
        mutex := fun h1 => by
          have h2 : busyPC c.pcA = true := h1.1
          rw [hbusy.1] at h2
          simp at h2
        ip := by simp [busyPC, hbusy.1]
        traceB := by rw [h.traceB, hA]; rfl
        traceA := h.traceA
        lrB := fun h1 _ => by simp [finishedRunPC] at h1
        lrA := fun h1 _ => h.lrA h1 (by rw [hA]; rfl)
        waitB := fun h0 => nomatch h0
        waitA := fun _ => by simp [engagedPC, busyPC]
        joinB := fun o h0 => nomatch h0
        joinA := fun o h0 => by
          have h2 := (h.joinA o h0).2
          rw [hA] at h2
          simp [finishedRunPC] at h2 }
  | waiting =>
    by_cases hip : c.flight.inProgress = true
    · have hstep : mstep server implOut dur c true = c := by
        simp [mstep, threadStep, hA, hip]
        rw [← hA]
      rw [hstep]
      exact h
    · have hipf : c.flight.inProgress = false := by simpa using hip
      have hbusy : busyPC c.pcA = false ∧ busyPC c.pcB = false := by
        have h6 := h.ip
        rw [hipf] at h6
        exact Bool.or_eq_false_iff.mp h6.symm
      have hengB : engagedPC c.pcA = true := h.waitB hA
      have hfinB : finishedRunPC c.pcA = true := by
        simpa [engagedPC, hbusy.1] using hengB
      obtain ⟨oB, hB⟩ := finishedRun_exists hfinB
      have hlr : c.flight.lastResult =
          some (mkLastResult server (dur false) (implOut false)) :=
        h.lrA hfinB (by rw [hA]; rfl)
      have hstep : mstep server implOut dur c true =
          { flight := { c.flight with waiters := c.flight.waiters - 1 },
            pcB := .done (.ok (joinedResult server c.flight.lastResult)) true,
            pcA := c.pcA, trace := c.trace } := by
        simp [mstep, threadStep, hA, hipf]
      rw [hstep]
      exact {
        outBfin := fun o h0 => nomatch h0
        outBdone := fun o h0 => by
          have h1 : PC.done (.ok (joinedResult server c.flight.lastResult)) true =
              .done o false := h0
          injection h1 with h2 h3
          simp at h3
        outAfin := h.outAfin
        outAdone := h.outAdone
        mutex := fun h1 => by simp [busyPC] at h1
        ip := by
          show c.flight.inProgress =
            (busyPC c.pcA ||
              busyPC (PC.done (.ok (joinedResult server c.flight.lastResult)) true))
          rw [hipf, hbusy.1]
          rfl
        traceB := by rw [h.traceB, hA]; rfl
        traceA := h.traceA
        lrB := fun h1 _ => by simp [finishedRunPC] at h1
        lrA := fun h1 _ => h.lrA h1 (by rw [hA]; rfl)
        waitB := fun h0 => nomatch h0
        waitA := fun hw => by rw [hw] at hB; nomatch hB
        joinB := fun o h0 => by
          have h1 : PC.done (.ok (joinedResult server c.flight.lastResult)) true =
              .done o true := h0
          injection h1 with h2 h3
          refine ⟨?_, hfinB⟩
          rw [← h2, hlr]
        joinA := fun o h0 => by
          have h2 := (h.joinA o h0).2
          rw [hA] at h2
          simp [finishedRunPC] at h2 }
  | running =>
    have hbusyA : busyPC c.pcB = true := by rw [hA]; rfl
    have hbusyB : busyPC c.pcA = false := by
      by_contra hb
      exact h.mutex ⟨by simpa using hb, hbusyA⟩
    have hip : c.flight.inProgress = true := by
      rw [h.ip, hbusyA]
      simp
    have hstep : mstep server implOut dur c true =
        { flight := c.flight, pcB := .finishing (implOut true), pcA := c.pcA,
          trace := c.trace ++ [true] } := by
      simp [mstep, threadStep, hA]
    rw [hstep]
    exact {
      outBfin := fun o h0 => by
        have h1 : PC.finishing (implOut true) = .finishing o := h0
        injection h1 with h2
        exact h2.symm
      outBdone := fun o h0 => nomatch h0
      outAfin := h.outAfin
      outAdone := h.outAdone
      mutex := fun h1 => by
        have h2 : busyPC c.pcA = true := h1.1
        rw [hbusyB] at h2
        simp at h2
      ip := by simp [busyPC, hbusyB, hip]
      traceB := by
        simp only [List.count_append]
        rw [h.traceB, hA]
        rfl
      traceA := by
        simp only [List.count_append]
        rw [h.traceA]
        rfl
      lrB := fun h1 _ => by simp [finishedRunPC] at h1
      lrA := fun h1 _ => h.lrA h1 (by rw [hA]; rfl)
      waitB := fun h0 => nomatch h0
      waitA := fun _ => by simp [engagedPC, busyPC]
      joinB := fun o h0 => nomatch h0
      joinA := fun o h0 => by
        have h2 := (h.joinA o h0).2
        rw [hA] at h2
        simp [finishedRunPC] at h2 }
  | finishing oA =>
    have hoA : oA = implOut true := h.outBfin oA hA
    have hbusyA : busyPC c.pcB = true := by rw [hA]; rfl
    have hbusyB : busyPC c.pcA = false := by
      by_contra hb
      exact h.mutex ⟨by simpa using hb, hbusyA⟩
    have hstep : mstep server implOut dur c true =
        { flight := { c.flight with
            inProgress := false,
            lastResult := some (mkLastResult server (dur true) oA) },
          pcB := .done oA false, pcA := c.pcA, trace := c.trace } := by
      simp [mstep, threadStep, hA]
    rw [hstep]
    exact {
      outBfin := fun o h0 => nomatch h0
      outBdone := fun o h0 => by
        have h1 : PC.done oA false = .done o false := h0
        injection h1 with h2 h3
        rw [← h2, hoA]
      outAfin := h.outAfin
      outAdone := h.outAdone
      mutex := fun h1 => by simp [busyPC] at h1
      ip := by
        show false = (busyPC c.pcA || busyPC (PC.done oA false))
        rw [hbusyB]
        rfl
      traceB := by rw [h.traceB, hA]; rfl
      traceA := h.traceA
      lrB := fun _ _ => by rw [hoA]
      lrA := fun h1 h2 => by simp [finishedRunPC] at h2
      waitB := fun h0 => nomatch h0
      waitA := fun hw => by simp [engagedPC, finishedRunPC]
      joinB := fun o h0 => by
        have h1 : PC.done oA false = .done o true := h0
        injection h1 with h2 h3
        simp at h3
      joinA := fun o h0 => by
        have h2 := (h.joinA o h0).2
        rw [hA] at h2
        simp [finishedRunPC] at h2 }
  | done oA j =>
    have hstep : mstep server implOut dur c true = c := by
      simp [mstep, threadStep, hA]
      rw [← hA]
    rw [hstep]
    exact h

/-! Freshness gate and resolver failure. -/

theorem refreshImpl_skip_eq (st : FsState) (env : Env) (server : String)
    (hc : skipCond st env server = true) :
    refreshImpl st env server =
      (skipResult server,
       { st with
         metaFile := some (some
           { lastUpdate := (loadMeta st.metaFile).lastUpdate,
             lastRefreshAt :=
               dinsert (loadMeta st.metaFile).lastRefreshAt server env.now }) },
       [.netWorldData server, .writeMeta]) := by
  simp [refreshImpl, hc]

/-- C2: when the remote last_update for a server is present (non-empty) and
equals the locally stored one, the refresh performs exactly one network call
(the world-data request), leaves both catalog files unchanged and unwritten,
records the fresh `last_refresh_at` in the persisted metadata, and returns the
skip result (skipped flag set, all item counts 0). -/
theorem idempotent_skip (st : FsState) (env : Env) (server t : String)
    (hr : extractLastUpdate env.worldResp server = some t) (ht : t ≠ "")
    (hl : dlookup (loadMeta st.metaFile).lastUpdate server = some t) :
    netEffs (refreshImpl st env server).2.2 = [.netWorldData server] ∧
    (refreshImpl st env server).2.1.creatureItems = st.creatureItems ∧
    (refreshImpl st env server).2.1.deliveryItems = st.deliveryItems ∧
    Eff.writeCreature ∉ (refreshImpl st env server).2.2 ∧
    Eff.writeDelivery ∉ (refreshImpl st env server).2.2 ∧
    dlookup (loadMeta (refreshImpl st env server).2.1.metaFile).lastRefreshAt server =
      some env.now ∧
    Eff.writeMeta ∈ (refreshImpl st env server).2.2 ∧
    (refreshImpl st env server).1 = skipResult server := by
  have hc : skipCond st env server = true := by
    unfold skipCond
    rw [hr, hl]
    simp [ht]
  rw [refreshImpl_skip_eq st env server hc]
  refine ⟨by simp [netEffs], rfl, rfl, by simp, by simp, ?_, by simp, rfl⟩
  simp only [loadMeta]
  exact dlookup_dinsert_self _ server env.now

/-- Witness for C2 on a concrete matching state and environment. -/
theorem idempotent_skip_witness :
    extractLastUpdate sampleSkipEnv.worldResp "Antica" = some "T1" ∧ ("T1" : String) ≠ "" ∧
    dlookup (loadMeta sampleSkipSt.metaFile).lastUpdate "Antica" = some "T1" ∧
    (netEffs (refreshImpl sampleSkipSt sampleSkipEnv "Antica").2.2 =
        [.netWorldData "Antica"] ∧
      (refreshImpl sampleSkipSt sampleSkipEnv "Antica").2.1.creatureItems =
        sampleSkipSt.creatureItems ∧
      (refreshImpl sampleSkipSt sampleSkipEnv "Antica").2.1.deliveryItems =
        sampleSkipSt.deliveryItems ∧
      Eff.writeCreature ∉ (refreshImpl sampleSkipSt sampleSkipEnv "Antica").2.2 ∧
      Eff.writeDelivery ∉ (refreshImpl sampleSkipSt sampleSkipEnv "Antica").2.2 ∧
      dlookup (loadMeta (refreshImpl sampleSkipSt sampleSkipEnv "Antica").2.1.metaFile).lastRefreshAt
          "Antica" = some sampleSkipEnv.now ∧
      Eff.writeMeta ∈ (refreshImpl sampleSkipSt sampleSkipEnv "Antica").2.2 ∧
      (refreshImpl sampleSkipSt sampleSkipEnv "Antica").1 = skipResult "Antica") :=
  ⟨by rfl, by decide, by rfl,
    idempotent_skip sampleSkipSt sampleSkipEnv "Antica" "T1" (by rfl) (by decide) (by rfl)⟩

/-- C5 (amended): the id resolver fails exactly when the reference document is
missing or no table whose normalized header cells include both "item" and "id"
is found; a qualifying table yielding zero mappings is returned as an empty
mapping, not an error.  On a resolution failure the run returns the error
result without touching anything: the state is returned unchanged and the only
effect is the world-data request. -/
theorem resolution_error_spec :
    (∀ d : Option (List Table), (∃ e, fetch_item_ids d = .error e) ↔
      (d = none ∨ ∃ ts, d = some ts ∧ find_table ts ["item", "id"] = none)) ∧
    (∀ st env server, skipCond st env server = false →
      cachedMapping st.idsCache = none →
      (∃ e, fetch_item_ids st.dump = .error e) →
      refreshImpl st env server =
        (itemIdsErrorResult server, st, [.netWorldData server])) := by
  constructor
  · intro d
    cases d with
    | none => simp [fetch_item_ids]
    | some ts =>
      cases hf : find_table ts ["item", "id"] with
      | none => simp [fetch_item_ids, hf]
      | some tb => simp [fetch_item_ids, hf]
  · intro st env server hskip hcm he
    obtain ⟨e, he⟩ := he
    simp [refreshImpl, hskip, hcm, he]

/-- Witness for C5 on a state with a missing reference dump. -/
theorem resolution_error_spec_witness :
    skipCond sampleErrSt sampleErrEnv "Antica" = false ∧
    cachedMapping sampleErrSt.idsCache = none ∧
    fetch_item_ids sampleErrSt.dump = .error "Item IDs dump not found" ∧
    refreshImpl sampleErrSt sampleErrEnv "Antica" =
      (itemIdsErrorResult "Antica", sampleErrSt, [.netWorldData "Antica"]) :=
  ⟨by rfl, by rfl, by rfl,
    resolution_error_spec.2 sampleErrSt sampleErrEnv "Antica" (by rfl) (by rfl)
      ⟨"Item IDs dump not found", by rfl⟩⟩

/-- C5 counterexample: a dump whose qualifying table has a header row and no
data rows yields zero mappings, yet `fetch_item_ids` succeeds (with the empty
mapping) instead of failing. -/
theorem fetch_item_ids_zero_mappings_no_error :
    fetch_item_ids (some [[["item", "id"]]]) = .ok [] := by
  rfl

/-! Single-flight machine: invariant propagation and the joined result. -/

theorem minv_step (server : String) (implOut : Bool → Except String RDict) (dur : Bool → ℚ)
    (c : MConfig) (who : Bool) (h : MInv server implOut dur c) :
    MInv server implOut dur (mstep server implOut dur c who) := by
  cases who with
  | false => exact minv_stepA server implOut dur c h
  | true => exact minv_stepB server implOut dur c h

theorem minv_init (server : String) (implOut : Bool → Except String RDict) (dur : Bool → ℚ)
    (f0 : Flight) (h : f0.inProgress = false) :
    MInv server implOut dur { flight := f0, pcA := .start, pcB := .start, trace := [] } :=
  { outAfin := fun o h0 => nomatch h0
    outAdone := fun o h0 => nomatch h0
    outBfin := fun o h0 => nomatch h0
    outBdone := fun o h0 => nomatch h0
    mutex := fun h1 => by simp [busyPC] at h1
    ip := by
      show f0.inProgress = (busyPC PC.start || busyPC PC.start)
      rw [h]
      rfl
    traceA := rfl
    traceB := rfl
    lrA := fun h1 _ => by simp [finishedRunPC] at h1
    lrB := fun h1 _ => by simp [finishedRunPC] at h1
    waitA := fun h0 => nomatch h0
    waitB := fun h0 => nomatch h0
    joinA := fun o h0 => nomatch h0
    joinB := fun o h0 => nomatch h0 }

theorem minv_foldl (server : String) (implOut : Bool → Except String RDict) (dur : Bool → ℚ) :
    ∀ (sched : List Bool) (c : MConfig), MInv server implOut dur c →
      MInv server implOut dur (sched.foldl (mstep server implOut dur) c)
  | [], _, hc => hc
  | w :: ws, c, hc =>
    minv_foldl server implOut dur ws _ (minv_step server implOut dur c w hc)

theorem minv_mrun (server : String) (implOut : Bool → Except String RDict) (dur : Bool → ℚ)
    (f0 : Flight) (sched : List Bool) (h : f0.inProgress = false) :
    MInv server implOut dur (mrun server implOut dur f0 sched) :=
  minv_foldl server implOut dur sched _ (minv_init server implOut dur f0 h)

theorem bool_counts_nil {l : List Bool} (hf : l.count false = 0) (ht : l.count true = 0) :
    l = [] := by
  cases l with
  | nil => rfl
  | cons b t =>
    cases b
    · simp [List.count_cons] at hf
    · simp [List.count_cons] at ht

theorem bool_counts_single {l : List Bool} (hf : l.count false = 1) (ht : l.count true = 0) :
    l = [false] := by
  cases l with
  | nil => simp at hf
  | cons b t =>
    cases b
    · have hf2 : t.count false = 0 := by simpa [List.count_cons] using hf
      have ht2 : t.count true = 0 := by simpa [List.count_cons] using ht
      rw [bool_counts_nil hf2 ht2]
    · simp [List.count_cons] at ht

theorem joined_covers (server : String) (d : ℚ) (ra : RDict) (hnd : keysNodup ra) :
    coversDict (joinedResult server (some (mkLastResult server d (.ok ra)))) ra := by
  intro k v h
  have hm : dlookup (dmerge
      [("server", RVal.rstr server), ("duration_seconds", RVal.rrat d)] ra) k = some v :=
    dmerge_covers _ _ _ _ hnd h
  exact rsetdefault_preserves _ _ _ _ _ (rsetdefault_preserves _ _ _ _ _ hm)

theorem joined_status (server : String) (d : ℚ) (ra : RDict)
    (hs : dlookup ra "status" = none) :
    dlookup (joinedResult server (some (mkLastResult server d (.ok ra)))) "status" =
      some (RVal.rstr "joined") := by
  have hm : dlookup (dmerge
      [("server", RVal.rstr server), ("duration_seconds", RVal.rrat d)] ra) "status" = none :=
    dmerge_lookup_none _ _ _ (by rfl) hs
  have h1 : dlookup (rsetdefault (mkLastResult server d (.ok ra)) "server"
      (.rstr server)) "status" = none := by
    rw [dlookup_rsetdefault_ne _ _ _ _ (by decide)]
    exact hm
  exact dlookup_rsetdefault_of_none _ _ _ h1

/-- **C1.** Single-flight mutual exclusion, corrected on value-equality: in any
two-caller schedule whose end state has the first caller finished with its own
run and the second caller joined, exactly one pipeline run happened (the first
caller's), the first caller returns its pipeline result `ra`, and the joined
caller returns `dict(last_result)` with `server`/`status` setdefaults: a dict
that agrees with `ra` on every key of `ra` (when `ra` has distinct keys) and
carries `status` `"joined"` (when `ra` has no `status` key) — but is not
value-equal to `ra`, since it also carries the `duration_seconds` binding of
the `finally` block (see the counterexample). -/
theorem single_flight_join (server : String) (implOut : Bool → Except String RDict)
    (dur : Bool → ℚ) (f0 : Flight) (sched : List Bool)
    (oa ob : Except String RDict) (ra : RDict)
    (h0 : f0.inProgress = false)
    (hA : (mrun server implOut dur f0 sched).pcA = .done oa false)
    (hB : (mrun server implOut dur f0 sched).pcB = .done ob true)
    (hra : implOut false = .ok ra) :
    (mrun server implOut dur f0 sched).trace = [false] ∧
    oa = .ok ra ∧
    ob = .ok (joinedResult server (some (mkLastResult server (dur false) (.ok ra)))) ∧
    (keysNodup ra →
      coversDict (joinedResult server (some (mkLastResult server (dur false) (.ok ra)))) ra) ∧
    (dlookup ra "status" = none →
      dlookup (joinedResult server (some (mkLastResult server (dur false) (.ok ra)))) "status"
        = some (RVal.rstr "joined")) := by
  have hInv := minv_mrun server implOut dur f0 sched h0
  have hoa := hInv.outAdone oa hA
  have hob := (hInv.joinB ob hB).1
  have hta := hInv.traceA
  have htb := hInv.traceB
  rw [hA] at hta
  rw [hB] at htb
  refine ⟨?_, ?_, ?_, fun hnd => joined_covers server (dur false) ra hnd,
    fun hs => joined_status server (dur false) ra hs⟩
  · refine bool_counts_single ?_ ?_
    · rw [hta]
      rfl
    · rw [htb]
      rfl
  · rw [hoa, hra]
  · rw [hob, hra]

theorem single_flight_join_witness :
    cexFlight.inProgress = false ∧
    ((mrun "Antica" cexImplOut (fun _ => 0) cexFlight cexSched).trace = [false] ∧
      (Except.ok cexRa : Except String RDict) = .ok cexRa ∧
      (Except.ok cexJoined : Except String RDict) =
        .ok (joinedResult "Antica" (some (mkLastResult "Antica" 0 (.ok cexRa)))) ∧
      (keysNodup cexRa →
        coversDict (joinedResult "Antica"
          (some (mkLastResult "Antica" 0 (.ok cexRa)))) cexRa) ∧
      (dlookup cexRa "status" = none →
        dlookup (joinedResult "Antica"
          (some (mkLastResult "Antica" 0 (.ok cexRa)))) "status"
          = some (RVal.rstr "joined"))) :=
  ⟨rfl, single_flight_join "Antica" cexImplOut (fun _ => 0) cexFlight cexSched
    (.ok cexRa) (.ok cexJoined) cexRa rfl rfl rfl rfl⟩

/-- C1 counterexample to value-equality: in the concrete run the owner finishes
with `cexRa` and the joiner with `cexJoined`, which has the extra
`duration_seconds` and `status` bindings, so the two dicts are not equal. -/
theorem single_flight_join_counterexample :
    (mrun "Antica" cexImplOut (fun _ => 0) cexFlight cexSched).pcA =
      .done (.ok cexRa) false ∧
    (mrun "Antica" cexImplOut (fun _ => 0) cexFlight cexSched).pcB =
      .done (.ok cexJoined) true ∧
    cexJoined ≠ cexRa := by
  refine ⟨rfl, rfl, fun h => ?_⟩
  exact absurd (congrArg List.length h) (by decide)

/-- **C3.** Exception semantics of `refresh_server`, corrected on what waiters
receive: if the owner's run raises, the exception propagates to the owner, the
flight returns to not-in-progress, but the `finally` block first overwrites
`flight.last_result` with `{"server": server, "duration_seconds": d}` (the
`**(result or {})` splat of a `None` result adds nothing), so a joined waiter
receives that overwritten dict plus `status` `"joined"` — not the `last_result`
that existed before the exception (see the counterexample). -/
theorem single_flight_error (server : String) (implOut : Bool → Except String RDict)
    (dur : Bool → ℚ) (f0 : Flight) (sched : List Bool)
    (oa ob : Except String RDict) (e : String)
    (h0 : f0.inProgress = false)
    (hA : (mrun server implOut dur f0 sched).pcA = .done oa false)
    (hB : (mrun server implOut dur f0 sched).pcB = .done ob true)
    (herr : implOut false = .error e) :
    oa = .error e ∧
    (mrun server implOut dur f0 sched).flight.inProgress = false ∧
    (mrun server implOut dur f0 sched).flight.lastResult =
      some [("server", RVal.rstr server), ("duration_seconds", RVal.rrat (dur false))] ∧
    ob = .ok [("server", RVal.rstr server), ("duration_seconds", RVal.rrat (dur false)),
      ("status", RVal.rstr "joined")] := by
  have hInv := minv_mrun server implOut dur f0 sched h0
  have hoa := hInv.outAdone oa hA
  have hob := (hInv.joinB ob hB).1
  have hfinA : finishedRunPC (mrun server implOut dur f0 sched).pcA = true := by
    rw [hA]
    rfl
  have hfinB : finishedRunPC (mrun server implOut dur f0 sched).pcB = false := by
    rw [hB]
    rfl
  have hlr := hInv.lrA hfinA hfinB
  refine ⟨by rw [hoa, herr], ?_, ?_, ?_⟩
  · rw [hInv.ip, hA, hB]
    rfl
  · rw [hlr, herr]
    rfl
  · rw [hob, herr]
    rfl

theorem single_flight_error_witness :
    cexErrFlight.inProgress = false ∧
    ((Except.error "boom" : Except String RDict) = .error "boom" ∧
      (mrun "Antica" cexErrImplOut (fun _ => 0) cexErrFlight cexSched).flight.inProgress
        = false ∧
      (mrun "Antica" cexErrImplOut (fun _ => 0) cexErrFlight cexSched).flight.lastResult =
        some [("server", RVal.rstr "Antica"), ("duration_seconds", RVal.rrat 0)] ∧
      (Except.ok cexErrJoined : Except String RDict) =
        .ok [("server", RVal.rstr "Antica"), ("duration_seconds", RVal.rrat 0),
          ("status", RVal.rstr "joined")]) :=
  ⟨rfl, single_flight_error "Antica" cexErrImplOut (fun _ => 0) cexErrFlight cexSched
    (.error "boom") (.ok cexErrJoined) "boom" rfl rfl rfl rfl⟩

/-- C3 counterexample to "waiters receive the pre-exception `last_result`": the
flight starts with the stale-but-valid `cexPrior` (which has `updated_items`)
in `last_result`, the owner's run raises, and the joined waiter receives
`cexErrJoined`, which is a different dict with no `updated_items` binding. -/
theorem single_flight_error_counterexample :
    cexErrFlight.lastResult = some cexPrior ∧
    (mrun "Antica" cexErrImplOut (fun _ => 0) cexErrFlight cexSched).pcB =
      .done (.ok cexErrJoined) true ∧
    cexErrJoined ≠ cexPrior ∧
    dlookup cexPrior "updated_items" = some (RVal.rint 4) ∧
    dlookup cexErrJoined "updated_items" = none := by
  refine ⟨rfl, rfl, fun h => ?_, rfl, rfl⟩
  exact absurd (congrArg List.length h) (by decide)

end MarketRefresh
